import Mathlib

/-!
Verification development for the libisofuzz repository (C++ sources under
src/).  The C++ code is shallowly embedded in Lean:

* environment-variable parsing (`std::stoi` / `std::stol` as used by
  `init_rng` and `scheduler_init` in src/src/scheduler.cpp);
* the trace-line builder `log_generic_op` and the public entry points of
  src/unnamed/part_002 (the isofuzz.cpp revision that routes every record
  through `log_generic_op`), plus the transaction registry of
  src/src/isofuzz.cpp / src/src/isofuzz_ctx.h;
* the library lifecycle (`logger_init` / `logger_shutdown` of
  src/src/logger.cpp and `scheduler_init` / `scheduler_shutdown` of
  src/src/scheduler.cpp) as a pure state transformer;
* the binary heap behind `std::priority_queue` with the comparator
  `CompareTrxPriority` (GNU libstdc++ `__push_heap` / `__adjust_heap`, the
  de-facto semantics of the container the code instantiates);
* the epoch scheduler thread `trx_scheduler_run` together with
  `scheduler_request` and `scheduler_shutdown` (the raw-pointer revision
  embedded at the end of src/src/logger.cpp, whose scheduler logic agrees
  with src/src/scheduler.cpp) as an interleaving transition system.

Machine integers: all ids and priorities are C++ unsigned/int values that
stay far below their overflow bounds in every scenario considered here, so
they are embedded as `Nat`; `std::stoi`/`std::stol` results are embedded as
`Int` with the explicit int/long range checks that make the C++ functions
throw.
-/

/-! ## Environment-variable parsing (src/src/scheduler.cpp, init_rng and scheduler_init) -/

/-- Whitespace predicate of `std::isspace` in the C locale, used by `strtol`
before sign/digit scanning. -/
def cppIsSpace (c : Char) : Bool :=
  c == ' ' || c == '\t' || c == '\n' || c == Char.ofNat 11 || c == Char.ofNat 12 || c == '\r'

/-- Digit accumulator of `strtol` base 10: consumes leading decimal digits,
returning the accumulated value and the unconsumed remainder. -/
def takeDigits : List Char → Nat → Nat × List Char
  | [], acc => (acc, [])
  | c :: cs, acc =>
    if c.isDigit then takeDigits cs (acc * 10 + (c.toNat - 48)) else (acc, c :: cs)

/-- Embedding of `strtol(s, ..., 10)` as used by `std::stoi`/`std::stol`:
skip C-locale whitespace, read an optional sign, then require at least one
decimal digit (otherwise no conversion is performed and `std::stoi`/`std::stol`
throw `invalid_argument`, embedded as `none`).  Trailing garbage after the
digits is ignored, exactly as in the C++ functions. -/
def strtolModel (s : String) : Option Int :=
  let cs := s.data.dropWhile cppIsSpace
  let signAndRest : Int × List Char :=
    match cs with
    | '+' :: t => (1, t)
    | '-' :: t => (-1, t)
    | t => (1, t)
  match signAndRest.2 with
  | [] => none
  | c :: _ =>
    if c.isDigit then some (signAndRest.1 * ((takeDigits signAndRest.2 0).1 : Int))
    else none

/-- Embedding of `std::stoi`: `strtolModel` plus the int-range check
(`std::stoi` throws `out_of_range` when the value does not fit in `int`). -/
def stoiModel (s : String) : Option Int :=
  match strtolModel s with
  | none => none
  | some v => if v < -2147483648 ∨ 2147483647 < v then none else some v

/-- Embedding of `std::stol`: `strtolModel` plus the long-range check. -/
def stolModel (s : String) : Option Int :=
  match strtolModel s with
  | none => none
  | some v => if v < -9223372036854775808 ∨ 9223372036854775807 < v then none else some v

/-- Seed chosen by `init_rng` (src/src/scheduler.cpp lines 60-75): default 42,
replaced by `std::stoi(RANDOM_SEED)` when the conversion does not throw. -/
def init_rng_seed (envRandomSeed : Option String) : Int :=
  match envRandomSeed with
  | none => 42
  | some s =>
    match stoiModel s with
    | none => 42
    | some v => v

/-- Epoch duration chosen by `scheduler_init` (src/src/scheduler.cpp lines
164-179): default 5 ms, replaced by `std::stol(ISOFUZZ_EPOCH_MS)` only when
the conversion succeeds and the value is strictly positive. -/
def epoch_duration_ms (envEpochMs : Option String) : Int :=
  match envEpochMs with
  | none => 5
  | some s =>
    match stolModel s with
    | none => 5
    | some v => if 0 < v then v else 5

/-- Modelled from the spec's wording only (for comparison, not from the
source): a string "is an integer" when it is an optional sign followed by one
or more decimal digits and nothing else. -/
def isIntegerString (s : String) : Bool :=
  let cs :=
    match s.data with
    | '+' :: t => t
    | '-' :: t => t
    | t => t
  !cs.isEmpty && cs.all Char.isDigit

/-! ## Trace records (src/unnamed/part_002, src/src/isofuzz_ctx.h) -/

/-- Operation tags of `IsoFuzzOpType`, including the transaction-lifecycle
tags handled by `op_type_to_string` in src/unnamed/part_002. -/
inductive IsoFuzzOpType
  | READ
  | WRITE_UPDATE
  | WRITE_INSERT
  | WRITE_DELETE
  | TXN_PROMOTE
  | TXN_BEGIN
  | TXN_COMMIT
deriving DecidableEq

/-- String names from `op_type_to_string` (src/unnamed/part_002 lines 165-178). -/
def op_type_to_string : IsoFuzzOpType → String
  | .READ => "READ"
  | .WRITE_UPDATE => "UPDATE"
  | .WRITE_INSERT => "INSERT"
  | .WRITE_DELETE => "DELETE"
  | .TXN_PROMOTE => "PROMOTE"
  | .TXN_BEGIN => "BEGIN"
  | .TXN_COMMIT => "COMMIT"

/-- Data-object descriptor `IsoFuzzObject` (src/unnamed/part_000): table name,
optional column name (null pointer embedded as `none`), row identifier. -/
structure IsoFuzzObject where
  table_name : String
  column_name : Option String
  row_identifier : Nat
deriving DecidableEq

/-- Transaction record `IsoFuzzTrxImpl` (src/src/isofuzz_ctx.h lines 14-31):
immutable `lib_id`, mutable `dbms_id` (0 until promotion), and the thread id
captured at construction.  `std::thread::id` is opaque; it is embedded as a
`Nat` identifying the thread. -/
structure IsoFuzzTrxImpl where
  lib_id : Nat
  dbms_id : Nat
  thread_id : Nat
deriving DecidableEq

/-- Literal written for absent fields. -/
def naString : String := "N/A"

/-- Literal written for the final field of non-READ/UPDATE/DELETE/PROMOTE rows. -/
def zeroString : String := "0"

/-- Tab separator of the trace format. -/
def tabString : String := "\t"

/-- Effective transaction id computed at the top of `log_generic_op`
(src/unnamed/part_002 lines 125-129): `dbms_id` unless it is 0, else `lib_id`. -/
def effective_trx_id (trx : IsoFuzzTrxImpl) : Nat :=
  if trx.dbms_id = 0 then trx.lib_id else trx.dbms_id

/-- Field list of the line built by `log_generic_op` (src/unnamed/part_002
lines 118-161).  The C++ code concatenates these seven fields with tabs. -/
def log_generic_op_fields (trx : IsoFuzzTrxImpl) (op_type : IsoFuzzOpType)
    (object : Option IsoFuzzObject) (last_writer_trx_id : Nat) : List String :=
  [toString trx.thread_id, toString (effective_trx_id trx), op_type_to_string op_type]
    ++ (match object with
        | some o => [o.table_name, o.column_name.getD naString, toString o.row_identifier]
        | none => [naString, naString, naString])
    ++ [match op_type with
        | .TXN_PROMOTE => toString last_writer_trx_id
        | .READ => toString last_writer_trx_id
        | .WRITE_UPDATE => toString last_writer_trx_id
        | .WRITE_DELETE => toString last_writer_trx_id
        | _ => zeroString]

/-- Whole line, as passed to `logger_log_line`. -/
def logLineOfFields (fields : List String) : String :=
  String.intercalate tabString fields

/-- Handle resolution `IsoFuzzContext::get_trx` (src/src/isofuzz.cpp lines
29-33): a null handle yields null, and a non-null handle is
`reinterpret_cast` straight back to a record pointer with NO registry lookup.
A handle is embedded as `Option IsoFuzzTrxImpl`: `none` is the null pointer
and `some r` is a pointer to the record `r`. -/
def get_trx (handle : Option IsoFuzzTrxImpl) : Option IsoFuzzTrxImpl :=
  handle

/-- Registry removal `IsoFuzzContext::end_trx` (src/src/isofuzz.cpp lines
21-27): null is a no-op, otherwise the entry keyed by the handle's `lib_id`
is erased (erasing an absent key leaves the map unchanged). -/
def end_trx (handle : Option IsoFuzzTrxImpl)
    (m_transactions : List (Nat × IsoFuzzTrxImpl)) : List (Nat × IsoFuzzTrxImpl) :=
  match handle with
  | none => m_transactions
  | some trx => m_transactions.filter (fun e => e.1 != trx.lib_id)

/-- Record construction in `IsoFuzzContext::begin_trx` (src/src/isofuzz.cpp
lines 11-19): fresh `lib_id`, `dbms_id = 0`, and the calling thread's id. -/
def begin_trx (next_lib_id : Nat) (caller_thread : Nat) : IsoFuzzTrxImpl :=
  { lib_id := next_lib_id, dbms_id := 0, thread_id := caller_thread }

/-- Entry point `isofuzz_log_op` (src/unnamed/part_002 lines 107-111):
delegates to `log_generic_op` with the object present; returns the emitted
field list, or `none` when the null-handle guard fires and nothing is logged. -/
def isofuzz_log_op (handle : Option IsoFuzzTrxImpl) (op_type : IsoFuzzOpType)
    (object : IsoFuzzObject) (last_writer_trx_id : Nat) : Option (List String) :=
  match get_trx handle with
  | none => none
  | some trx => some (log_generic_op_fields trx op_type (some object) last_writer_trx_id)

/-- Entry point `isofuzz_trx_commit` (src/unnamed/part_002 lines 70-79):
null guard, then one COMMIT line with no object. -/
def isofuzz_trx_commit (handle : Option IsoFuzzTrxImpl) : Option (List String) :=
  match handle with
  | none => none
  | some trx => some (log_generic_op_fields trx .TXN_COMMIT none 0)

/-- Entry point `isofuzz_trx_promote` (src/unnamed/part_002 lines 81-87):
null guard; otherwise store `new_dbms_id` into the record, then emit exactly
one PROMOTE line whose last field is the (old, unchanged) `lib_id`.  Returns
the updated handle and the list of emitted lines (as field lists). -/
def isofuzz_trx_promote (handle : Option IsoFuzzTrxImpl) (new_dbms_id : Nat) :
    Option IsoFuzzTrxImpl × List (List String) :=
  match get_trx handle with
  | none => (handle, [])
  | some trx =>
    let trx2 := { trx with dbms_id := new_dbms_id }
    (some trx2, [log_generic_op_fields trx2 .TXN_PROMOTE none trx.lib_id])

/-- Entry point `isofuzz_schedule_op` (src/unnamed/part_002 lines 100-105):
null guard, then `scheduler_request(trx->lib_id, intent)`.  Returns the
`lib_id` handed to the scheduler, or `none` when no request is issued. -/
def isofuzz_schedule_op (handle : Option IsoFuzzTrxImpl) : Option Nat :=
  match get_trx handle with
  | none => none
  | some trx => some trx.lib_id

/-- Ghost wrapper recording which thread performs a `isofuzz_log_op` call.
The C++ `log_generic_op` never reads `std::this_thread::get_id()`; the
`currentThread` argument is therefore ignored, mirroring the source. -/
def log_op_called_from (currentThread : Nat) (handle : Option IsoFuzzTrxImpl)
    (op_type : IsoFuzzOpType) (object : IsoFuzzObject) (last_writer_trx_id : Nat) :
    Option (List String) :=
  isofuzz_log_op handle op_type object last_writer_trx_id

/-! ## Library lifecycle (src/src/logger.cpp lines 11-48, src/src/scheduler.cpp lines 160-203) -/

/-- Destination of the log sink (`g_out_ptr` in src/src/logger.cpp). -/
inductive LogDest
  | stdoutDest
  | fileDest (path : String)
  | stderrDest
deriving DecidableEq

/-- Observable library state touched by init/shutdown: the scheduler's
running flag, epoch duration and RNG seed, the logger destination, the waiter
map, and the transaction registry (which init/shutdown never touch). -/
structure LibState where
  scheduler_running : Bool
  epoch_ms : Int
  rng_seed : Int
  log_dest : LogDest
  trx_wait_map : List (Nat × Nat)
  m_transactions : List (Nat × IsoFuzzTrxImpl)
deriving DecidableEq

/-- Embedding of `logger_init` (src/src/logger.cpp lines 11-37): with
`OUT_FILE` unset the destination is stdout; with it set, the file when the
open succeeds (`openOk`), else stderr.  The close/reopen of an already-open
file keeps the destination and, because the file is opened in append mode,
the trace content. -/
def logger_init (envOutFile : Option String) (openOk : Bool) (s : LibState) : LibState :=
  match envOutFile with
  | none => { s with log_dest := .stdoutDest }
  | some path =>
    if openOk then { s with log_dest := .fileDest path }
    else { s with log_dest := .stderrDest }

/-- Embedding of `logger_shutdown` (src/src/logger.cpp lines 39-48): flush
and close any file, reset the destination to stdout. -/
def logger_shutdown (s : LibState) : LibState :=
  { s with log_dest := .stdoutDest }

/-- Embedding of `scheduler_init` (src/src/scheduler.cpp lines 160-183): the
`scheduler_running.exchange(true)` guard makes the whole body a no-op when
already running; otherwise it parses `ISOFUZZ_EPOCH_MS`, seeds the RNG from
`RANDOM_SEED`, and starts the scheduler thread (the running flag). -/
def scheduler_init (envRandomSeed envEpochMs : Option String) (s : LibState) : LibState :=
  if s.scheduler_running then s
  else
    { s with
      scheduler_running := true
      epoch_ms := epoch_duration_ms envEpochMs
      rng_seed := init_rng_seed envRandomSeed }

/-- Embedding of `scheduler_shutdown` (src/src/scheduler.cpp lines 185-203)
at the state level: when running, stop and join the thread, force-release and
clear the waiter map; otherwise a no-op. -/
def scheduler_shutdown_state (s : LibState) : LibState :=
  if s.scheduler_running then
    { s with scheduler_running := false, trx_wait_map := [] }
  else s

/-- Entry point `isofuzz_init` (src/src/isofuzz.cpp lines 37-41): logger
first, then scheduler. -/
def isofuzz_init (envOutFile : Option String) (openOk : Bool)
    (envRandomSeed envEpochMs : Option String) (s : LibState) : LibState :=
  scheduler_init envRandomSeed envEpochMs (logger_init envOutFile openOk s)

/-- Entry point `isofuzz_shutdown` (src/src/isofuzz.cpp lines 43-47):
scheduler first, then logger. -/
def isofuzz_shutdown (s : LibState) : LibState :=
  logger_shutdown (scheduler_shutdown_state s)

/-! ## The priority queue (CompareTrxPriority, src/src/scheduler.cpp lines 25-31)

The code instantiates `std::priority_queue<TrxPriority, std::vector<TrxPriority>,
CompareTrxPriority>`.  The definitions below embed the GNU libstdc++ binary
heap that implements this container (`std::push_heap` / `std::pop_heap`,
bits/stl_heap.h): `pushHeapLoop` is `std::__push_heap` (the sift-up with a
hole), `adjustDownLoop` plus the even-length tail step in `adjustHeap` is
`std::__adjust_heap` (hole sifted down to a leaf, then the saved value sifted
up), and `heapPop` is `std::priority_queue::pop`.  An element is a
`(priority, lib_id)` pair; `trxCompare` is `CompareTrxPriority`. -/

/-- Comparator `CompareTrxPriority::operator()` (src/src/scheduler.cpp lines
25-31): `a.first > b.first`, giving a min-heap on priority. -/
def trxCompare (a b : Nat × Nat) : Bool :=
  decide (b.1 < a.1)

/-- Out-of-range placeholder for indexed access; every access below is
in range, so the placeholder never shows through. -/
def heapDflt : Nat × Nat := (0, 0)

/-- Sift-up with a hole, `std::__push_heap(first, holeIndex, topIndex = 0,
value)`: while the hole has a parent that compares greater, move the parent
down; finally write the value into the hole.  The `fuel` argument is a pure
termination device: the hole index strictly decreases on every iteration, so
with any `fuel > hole` the fuel-exhausted base case is never reached. -/
def pushHeapLoopF (fuel : Nat) (l : List (Nat × Nat)) (hole : Nat) (value : Nat × Nat) :
    List (Nat × Nat) :=
  match fuel with
  | 0 => l.set hole value
  | fuel + 1 =>
    if hole = 0 then l.set 0 value
    else
      if trxCompare (l.getD ((hole - 1) / 2) heapDflt) value then
        pushHeapLoopF fuel (l.set hole (l.getD ((hole - 1) / 2) heapDflt)) ((hole - 1) / 2) value
      else
        l.set hole value

/-- Sift-up entered with exactly enough fuel. -/
def pushHeapLoop (l : List (Nat × Nat)) (hole : Nat) (value : Nat × Nat) : List (Nat × Nat) :=
  pushHeapLoopF (hole + 1) l hole value

/-- Push as done by `std::priority_queue::push`: append, then sift up from
the appended slot. -/
def heapPush (l : List (Nat × Nat)) (x : Nat × Nat) : List (Nat × Nat) :=
  pushHeapLoop (l ++ [x]) l.length x

/-- Child selection inside the `std::__adjust_heap` loop: `secondChild` is
first set to the right child `2 * (hole + 1)`; when the right child compares
greater under `CompareTrxPriority` (priority strictly smaller on the left),
`secondChild` is decremented to the left child.  On a priority tie the RIGHT
child is taken. -/
def adjustChild (l : List (Nat × Nat)) (hole : Nat) : Nat :=
  if trxCompare (l.getD (2 * (hole + 1)) heapDflt) (l.getD (2 * (hole + 1) - 1) heapDflt)
  then 2 * (hole + 1) - 1
  else 2 * (hole + 1)

/-- Down phase of `std::__adjust_heap`: the hole descends, always towards the
child that compares smaller under `CompareTrxPriority`, until it has no right
child inside `len`.  Returns the updated array and the final hole index.  The
hole index strictly increases and stays below `len`, so with any `fuel ≥ len`
the fuel-exhausted base case is never reached. -/
def adjustDownLoopF (fuel : Nat) (l : List (Nat × Nat)) (hole len : Nat) :
    List (Nat × Nat) × Nat :=
  match fuel with
  | 0 => (l, hole)
  | fuel + 1 =>
    if hole < (len - 1) / 2 then
      adjustDownLoopF fuel (l.set hole (l.getD (adjustChild l hole) heapDflt)) (adjustChild l hole) len
    else (l, hole)

/-- Down phase entered with enough fuel. -/
def adjustDownLoop (l : List (Nat × Nat)) (hole len : Nat) : List (Nat × Nat) × Nat :=
  adjustDownLoopF len l hole len

/-- Whole `std::__adjust_heap(first, holeIndex = 0, len, value)`: down phase,
then the special step for an even `len` whose hole stopped at the last
internal node with a single (left) child, then sift the saved value up from
the final hole. -/
def adjustHeap (l : List (Nat × Nat)) (len : Nat) (value : Nat × Nat) : List (Nat × Nat) :=
  if len % 2 = 0 ∧ 2 ≤ len ∧ (adjustDownLoop l 0 len).2 = (len - 2) / 2 then
    pushHeapLoop
      ((adjustDownLoop l 0 len).1.set (adjustDownLoop l 0 len).2
        ((adjustDownLoop l 0 len).1.getD (2 * ((adjustDownLoop l 0 len).2 + 1) - 1) heapDflt))
      (2 * ((adjustDownLoop l 0 len).2 + 1) - 1) value
  else
    pushHeapLoop (adjustDownLoop l 0 len).1 (adjustDownLoop l 0 len).2 value

/-- Pop as done by `std::priority_queue::pop` via `std::pop_heap`: return the
root; move the last element out as the saved value, discard the last slot,
and re-establish the heap on the first `n - 1` slots with `adjustHeap`.  For
a singleton no adjustment happens. -/
def heapPop (l : List (Nat × Nat)) : Option ((Nat × Nat) × List (Nat × Nat)) :=
  match l with
  | [] => none
  | [x] => some (x, [])
  | x :: y :: t =>
    let n := t.length + 2
    some (x, adjustHeap ((x :: y :: t).take (n - 1)) (n - 1) ((x :: y :: t).getD (n - 1) heapDflt))

/-- Fuelled repeated pop. -/
def drainFuel : Nat → List (Nat × Nat) → List (Nat × Nat)
  | 0, _ => []
  | fuel + 1, l =>
    match heapPop l with
    | none => []
    | some (x, rest) => x :: drainFuel fuel rest

/-- Pop everything: the order in which the DRAINING loop of
`trx_scheduler_run` (src/src/scheduler.cpp lines 117-154) removes the
entries of one batch from `scheduler_queue`. -/
def drainHeap (l : List (Nat × Nat)) : List (Nat × Nat) :=
  drainFuel l.length l

/-- Release order of one DRAINING batch: the batch entries are pushed in FIFO
order during the COLLECTING-to-DRAINING transition (src/src/scheduler.cpp
lines 104-115), then popped one by one, each pop releasing the popped
`lib_id`. -/
def releaseOrder (batch : List (Nat × Nat)) : List (Nat × Nat) :=
  drainHeap (batch.foldl heapPush [])

/-- Modelled from the spec's wording only (for comparison, not from the
source): insert keeping equal-priority elements in their existing order. -/
def stableInsertByPriority (x : Nat × Nat) : List (Nat × Nat) → List (Nat × Nat)
  | [] => [x]
  | y :: t => if x.1 ≤ y.1 then x :: y :: t else y :: stableInsertByPriority x t

/-- Modelled from the spec's wording only: ascending-priority order with ties
broken by insertion order (a stable insertion sort). -/
def stableSortByPriority (l : List (Nat × Nat)) : List (Nat × Nat) :=
  l.foldr stableInsertByPriority []

/-! ## Heap correctness

The invariant proofs below establish that the embedded libstdc++ heap always
pops a minimum-priority element, from which the ascending-priority release
order of one DRAINING batch follows. -/

/-- Priority stored at slot `i`. -/
def prioAt (l : List (Nat × Nat)) (i : Nat) : Nat :=
  (l.getD i heapDflt).1

/-- Binary-heap invariant of `scheduler_queue` under `CompareTrxPriority`:
every non-root slot has priority at least that of its parent slot. -/
def IsHeap (l : List (Nat × Nat)) : Prop :=
  ∀ i, 0 < i → i < l.length → prioAt l ((i - 1) / 2) ≤ prioAt l i

theorem prioAt_set_self (l : List (Nat × Nat)) (i : Nat) (v : Nat × Nat)
    (h : i < l.length) : prioAt (l.set i v) i = v.1 := by
  simp [prioAt, List.getD_eq_getElem?_getD, List.getElem?_set_self h]

theorem prioAt_set_ne (l : List (Nat × Nat)) (i j : Nat) (v : Nat × Nat)
    (h : i ≠ j) : prioAt (l.set i v) j = prioAt l j := by
  simp [prioAt, List.getD_eq_getElem?_getD, List.getElem?_set_ne h]

theorem prioAt_append_left (l l2 : List (Nat × Nat)) (i : Nat) (h : i < l.length) :
    prioAt (l ++ l2) i = prioAt l i := by
  simp [prioAt, List.getD_eq_getElem?_getD, List.getElem?_append, h]

theorem prioAt_take (l : List (Nat × Nat)) (k i : Nat) (h : i < k) :
    prioAt (l.take k) i = prioAt l i := by
  simp [prioAt, List.getD_eq_getElem?_getD, List.getElem?_take, h]

theorem getD_mem_of_lt (l : List (Nat × Nat)) (i : Nat) (h : i < l.length) :
    l.getD i heapDflt ∈ l := by
  rw [List.getD_eq_getElem?_getD, List.getElem?_eq_getElem h]
  exact List.getElem_mem h

/-- Root minimality: in a heap the root priority bounds every slot. -/
theorem isHeap_root_le (l : List (Nat × Nat)) (hh : IsHeap l) :
    ∀ i, i < l.length → prioAt l 0 ≤ prioAt l i := by
  intro i
  induction i using Nat.strong_induction_on with
  | _ i ih =>
    intro hi
    rcases Nat.eq_zero_or_pos i with h0 | h0
    · subst h0; exact le_refl _
    · have hp : (i - 1) / 2 < i := by omega
      exact le_trans (ih _ hp (lt_trans hp hi)) (hh i h0 hi)

/-- Root minimality restated for members. -/
theorem isHeap_root_le_mem (l : List (Nat × Nat)) (hh : IsHeap l) (y : Nat × Nat)
    (hy : y ∈ l) : prioAt l 0 ≤ y.1 := by
  rcases List.getElem_of_mem hy with ⟨i, hi, rfl⟩
  have h2 := isHeap_root_le l hh i hi
  have h3 : prioAt l i = (l[i]).1 := by
    rw [prioAt, List.getD_eq_getElem?_getD, List.getElem?_eq_getElem hi]
    rfl
  rw [h3] at h2
  exact h2

theorem length_pushHeapLoopF (fuel : Nat) :
    ∀ (l : List (Nat × Nat)) (hole : Nat) (value : Nat × Nat),
      (pushHeapLoopF fuel l hole value).length = l.length := by
  induction fuel with
  | zero => intro l hole value; simp [pushHeapLoopF]
  | succ fuel ih =>
    intro l hole value
    simp only [pushHeapLoopF]
    split
    · simp
    · split
      · rw [ih]; simp
      · simp

theorem mem_pushHeapLoopF (fuel : Nat) :
    ∀ (l : List (Nat × Nat)) (hole : Nat) (value : Nat × Nat),
      hole < l.length →
      ∀ x ∈ pushHeapLoopF fuel l hole value, x ∈ l ∨ x = value := by
  induction fuel with
  | zero =>
    intro l hole value _ x hx
    exact List.mem_or_eq_of_mem_set hx
  | succ fuel ih =>
    intro l hole value hhole x hx
    simp only [pushHeapLoopF] at hx
    split at hx
    · exact List.mem_or_eq_of_mem_set hx
    · split at hx
      · have hlt : (hole - 1) / 2 < l.length := by omega
        rcases ih _ _ _ (by simpa using hlt) x hx with hmem | hval
        · rcases List.mem_or_eq_of_mem_set hmem with h1 | h2
          · exact Or.inl h1
          · exact Or.inl (h2 ▸ getD_mem_of_lt l _ hlt)
        · exact Or.inr hval
      · exact List.mem_or_eq_of_mem_set hx

/-- Loop invariant of `std::__push_heap`: along the hole's path, (a) every
parent/child pair not involving the hole is heap-ordered, (b) the pending
value bounds the hole's children, and (c) the hole's parent bounds the hole's
children. -/
structure SiftUpInv (l : List (Nat × Nat)) (hole : Nat) (value : Nat × Nat) : Prop where
  hlt : hole < l.length
  pairsOff : ∀ i, 0 < i → i < l.length → i ≠ hole → (i - 1) / 2 ≠ hole →
    prioAt l ((i - 1) / 2) ≤ prioAt l i
  childVal : ∀ c, 0 < c → c < l.length → (c - 1) / 2 = hole → value.1 ≤ prioAt l c
  childGrand : ∀ c, 0 < c → c < l.length → (c - 1) / 2 = hole → 0 < hole →
    prioAt l ((hole - 1) / 2) ≤ prioAt l c

/-- Sift-up establishes the heap invariant from its loop invariant. -/
theorem pushHeapLoopF_isHeap (fuel : Nat) :
    ∀ (l : List (Nat × Nat)) (hole : Nat) (value : Nat × Nat),
      hole < fuel → SiftUpInv l hole value →
      IsHeap (pushHeapLoopF fuel l hole value) := by
  induction fuel with
  | zero => intro l hole value hf _; omega
  | succ fuel ih =>
    intro l hole value hf inv
    simp only [pushHeapLoopF]
    split
    case isTrue h0 =>
      subst h0
      intro i hi0 hilen
      rw [List.length_set] at hilen
      by_cases hp : (i - 1) / 2 = 0
      · rw [hp, prioAt_set_self l 0 value inv.hlt, prioAt_set_ne l 0 i value (by omega)]
        exact inv.childVal i hi0 hilen hp
      · rw [prioAt_set_ne l 0 ((i - 1) / 2) value (by omega),
          prioAt_set_ne l 0 i value (by omega)]
        exact inv.pairsOff i hi0 hilen (by omega) hp
    case isFalse h0 =>
      split
      case isTrue hcomp =>
        have hhole0 : 0 < hole := by omega
        have hplt : (hole - 1) / 2 < hole := by omega
        have hplen : (hole - 1) / 2 < l.length := lt_trans hplt inv.hlt
        have hvlt : value.1 < prioAt l ((hole - 1) / 2) := by
          simpa [trxCompare, prioAt] using hcomp
        refine ih _ _ _ (by omega) ?_
        refine ⟨by simpa using hplen, ?_, ?_, ?_⟩
        · -- pairs not involving the new hole (the old parent slot)
          intro i hi0 hilen hine hpne
          rw [List.length_set] at hilen
          by_cases hih : i = hole
          · exact absurd (by rw [hih]) hpne
          · by_cases hpih : (i - 1) / 2 = hole
            · rw [hpih, prioAt_set_self l hole _ inv.hlt,
                prioAt_set_ne l hole i _ (by omega)]
              exact inv.childGrand i hi0 hilen hpih hhole0
            · rw [prioAt_set_ne l hole ((i - 1) / 2) _ (by omega),
                prioAt_set_ne l hole i _ (by omega)]
              exact inv.pairsOff i hi0 hilen hih hpih
        · -- the pending value bounds the children of the new hole
          intro c hc0 hclen hcp
          rw [List.length_set] at hclen
          by_cases hch : c = hole
          · rw [hch, prioAt_set_self l hole _ inv.hlt]
            exact le_of_lt hvlt
          · rw [prioAt_set_ne l hole c _ (by omega)]
            have hstep : prioAt l ((hole - 1) / 2) ≤ prioAt l c := by
              have h4 := inv.pairsOff c hc0 hclen hch (by omega)
              rwa [hcp] at h4
            exact le_of_lt (lt_of_lt_of_le hvlt hstep)
        · -- the grandparent bounds the children of the new hole
          intro c hc0 hclen hcp hp0
          rw [List.length_set] at hclen
          have hparent : prioAt l (((hole - 1) / 2 - 1) / 2) ≤ prioAt l ((hole - 1) / 2) :=
            inv.pairsOff _ hp0 hplen (by omega) (by omega)
          by_cases hch : c = hole
          · rw [hch, prioAt_set_ne l hole (((hole - 1) / 2 - 1) / 2) _ (by omega),
              prioAt_set_self l hole _ inv.hlt]
            exact hparent
          · rw [prioAt_set_ne l hole (((hole - 1) / 2 - 1) / 2) _ (by omega),
              prioAt_set_ne l hole c _ (by omega)]
            have hstep : prioAt l ((hole - 1) / 2) ≤ prioAt l c := by
              have h4 := inv.pairsOff c hc0 hclen hch (by omega)
              rwa [hcp] at h4
            exact le_trans hparent hstep
      case isFalse hcomp =>
        have hhole0 : 0 < hole := by omega
        have hvge : prioAt l ((hole - 1) / 2) ≤ value.1 := by
          simp only [trxCompare, decide_eq_true_eq] at hcomp
          simp only [prioAt]
          omega
        intro i hi0 hilen
        rw [List.length_set] at hilen
        by_cases hih : i = hole
        · rw [hih, prioAt_set_self l hole value inv.hlt,
            prioAt_set_ne l hole ((hole - 1) / 2) value (by omega)]
          exact hvge
        · by_cases hpih : (i - 1) / 2 = hole
          · rw [hpih, prioAt_set_self l hole value inv.hlt,
              prioAt_set_ne l hole i value (by omega)]
            exact inv.childVal i hi0 hilen hpih
          · rw [prioAt_set_ne l hole ((i - 1) / 2) value (by omega),
              prioAt_set_ne l hole i value (by omega)]
            exact inv.pairsOff i hi0 hilen hih hpih

/-- Push preserves the heap invariant. -/
theorem isHeap_heapPush (l : List (Nat × Nat)) (x : Nat × Nat) (hh : IsHeap l) :
    IsHeap (heapPush l x) := by
  refine pushHeapLoopF_isHeap (l.length + 1) (l ++ [x]) l.length x (by omega) ?_
  refine ⟨by simp, ?_, ?_, ?_⟩
  · intro i hi0 hilen hine hpne
    rw [List.length_append, List.length_singleton] at hilen
    have hi : i < l.length := by omega
    have hp : (i - 1) / 2 < l.length := by omega
    rw [prioAt_append_left l [x] _ hp, prioAt_append_left l [x] i hi]
    exact hh i hi0 hi
  · intro c hc0 hclen hcp
    rw [List.length_append, List.length_singleton] at hclen
    omega
  · intro c hc0 hclen hcp hp0
    rw [List.length_append, List.length_singleton] at hclen
    omega

theorem length_heapPush (l : List (Nat × Nat)) (x : Nat × Nat) :
    (heapPush l x).length = l.length + 1 := by
  simp [heapPush, pushHeapLoop, length_pushHeapLoopF]

theorem mem_heapPush (l : List (Nat × Nat)) (x : Nat × Nat) :
    ∀ y ∈ heapPush l x, y ∈ l ∨ y = x := by
  intro y hy
  rcases mem_pushHeapLoopF (l.length + 1) (l ++ [x]) l.length x (by simp) y hy with h | h
  · rcases List.mem_append.mp h with h1 | h2
    · exact Or.inl h1
    · exact Or.inr (by simpa using h2)
  · exact Or.inr h

/-- Child chosen by `adjustChild` is one of the two children of the hole and
carries the smaller priority of the two. -/
theorem adjustChild_spec (l : List (Nat × Nat)) (hole : Nat) :
    (adjustChild l hole = 2 * hole + 1 ∨ adjustChild l hole = 2 * hole + 2) ∧
    prioAt l (adjustChild l hole) ≤ prioAt l (2 * hole + 1) ∧
    prioAt l (adjustChild l hole) ≤ prioAt l (2 * hole + 2) := by
  have e1 : 2 * (hole + 1) - 1 = 2 * hole + 1 := by omega
  unfold adjustChild
  rw [e1]
  have e2 : 2 * (hole + 1) = 2 * hole + 2 := by omega
  rw [e2]
  split
  case isTrue h =>
    refine ⟨Or.inl rfl, le_refl _, ?_⟩
    simp only [trxCompare, decide_eq_true_eq] at h
    simp only [prioAt]
    omega
  case isFalse h =>
    refine ⟨Or.inr rfl, ?_, le_refl _⟩
    simp only [trxCompare, decide_eq_true_eq] at h
    simp only [prioAt]
    omega

/-- Loop invariant of the down phase of `std::__adjust_heap`: every pair not
involving the hole is heap-ordered, and the hole's parent bounds the hole's
children. -/
structure DownInv (l : List (Nat × Nat)) (hole len : Nat) : Prop where
  llen : l.length = len
  hlt : hole < len
  pairsOff : ∀ i, 0 < i → i < len → i ≠ hole → (i - 1) / 2 ≠ hole →
    prioAt l ((i - 1) / 2) ≤ prioAt l i
  childGrand : ∀ c, 0 < c → c < len → (c - 1) / 2 = hole → 0 < hole →
    prioAt l ((hole - 1) / 2) ≤ prioAt l c

/-- The down phase preserves its invariant and stops with the hole outside
the loop range. -/
theorem adjustDownLoopF_spec (fuel : Nat) :
    ∀ (l : List (Nat × Nat)) (hole len : Nat), len - hole ≤ fuel → DownInv l hole len →
      DownInv (adjustDownLoopF fuel l hole len).1 (adjustDownLoopF fuel l hole len).2 len ∧
      ¬ (adjustDownLoopF fuel l hole len).2 < (len - 1) / 2 := by
  induction fuel with
  | zero =>
    intro l hole len hf inv
    exfalso
    have := inv.hlt
    omega
  | succ fuel ih =>
    intro l hole len hf inv
    simp only [adjustDownLoopF]
    split
    case isTrue hguard =>
      obtain ⟨hcw, hcm1, hcm2⟩ := adjustChild_spec l hole
      have hcp : (adjustChild l hole - 1) / 2 = hole := by omega
      have hcgt : hole < adjustChild l hole := by omega
      have hclen : adjustChild l hole < len := by omega
      have hole_lt : hole < l.length := by rw [inv.llen]; exact inv.hlt
      refine ih _ _ _ (by omega) ?_
      refine ⟨by simpa using inv.llen, hclen, ?_, ?_⟩
      · intro i hi0 hilen hine hpne
        by_cases hih : i = hole
        · rw [hih, prioAt_set_self l hole _ hole_lt,
            prioAt_set_ne l hole ((hole - 1) / 2) _ (by omega)]
          exact inv.childGrand _ (by omega) hclen hcp (by omega)
        · by_cases hpih : (i - 1) / 2 = hole
          · rw [hpih, prioAt_set_self l hole _ hole_lt,
              prioAt_set_ne l hole i _ (by omega)]
            have hi12 : i = 2 * hole + 1 ∨ i = 2 * hole + 2 := by omega
            rcases hi12 with hi1 | hi2
            · rw [hi1]; exact hcm1
            · rw [hi2]; exact hcm2
          · rw [prioAt_set_ne l hole ((i - 1) / 2) _ (by omega),
              prioAt_set_ne l hole i _ (by omega)]
            exact inv.pairsOff i hi0 hilen hih hpih
      · intro c hc0 hclen2 hcp2 hc0p
        rw [hcp, prioAt_set_self l hole _ hole_lt,
          prioAt_set_ne l hole c _ (by omega)]
        have h4 := inv.pairsOff c hc0 hclen2 (by omega) (by omega)
        rwa [hcp2] at h4
    case isFalse hguard =>
      exact ⟨inv, hguard⟩

theorem length_adjustDownLoopF (fuel : Nat) :
    ∀ (l : List (Nat × Nat)) (hole len : Nat),
      ((adjustDownLoopF fuel l hole len).1).length = l.length := by
  induction fuel with
  | zero => intro l hole len; rfl
  | succ fuel ih =>
    intro l hole len
    simp only [adjustDownLoopF]
    split
    · rw [ih]; simp
    · rfl

theorem mem_adjustDownLoopF (fuel : Nat) :
    ∀ (l : List (Nat × Nat)) (hole len : Nat), len ≤ l.length →
      ∀ y ∈ (adjustDownLoopF fuel l hole len).1, y ∈ l := by
  induction fuel with
  | zero => intro l hole len _ y hy; exact hy
  | succ fuel ih =>
    intro l hole len hlen y hy
    simp only [adjustDownLoopF] at hy
    split at hy
    case isTrue hguard =>
      obtain ⟨hcw, _, _⟩ := adjustChild_spec l hole
      have hclen : adjustChild l hole < len := by omega
      have h4 := ih _ _ _ (by simpa using hlen) y hy
      rcases List.mem_or_eq_of_mem_set h4 with h5 | h5
      · exact h5
      · exact h5 ▸ getD_mem_of_lt l _ (by omega)
    case isFalse _ => exact hy

/-- Replacing the root of a heap via `std::__adjust_heap` re-establishes the
heap invariant. -/
theorem isHeap_adjustHeap (l : List (Nat × Nat)) (len : Nat) (value : Nat × Nat)
    (hl : l.length = len) (h0 : 0 < len) (hh : IsHeap l) :
    IsHeap (adjustHeap l len value) := by
  have hdi : DownInv l 0 len := by
    refine ⟨hl, h0, ?_, ?_⟩
    · intro i hi0 hilen _ _
      exact hh i hi0 (by omega)
    · intro c _ _ _ hp0
      exact absurd hp0 (by omega)
  obtain ⟨di, hstop⟩ := adjustDownLoopF_spec len l 0 len (by omega) hdi
  have hdlen : ((adjustDownLoopF len l 0 len).1).length = len := by
    rw [length_adjustDownLoopF]; exact hl
  have hdq := di.hlt
  unfold adjustHeap adjustDownLoop pushHeapLoop
  split
  case isTrue hcond =>
    obtain ⟨heven, h2len, hpos⟩ := hcond
    have hidx : 2 * ((adjustDownLoopF len l 0 len).2 + 1) - 1 = len - 1 := by omega
    rw [hidx]
    refine pushHeapLoopF_isHeap _ _ _ _ (by omega) ?_
    refine ⟨?_, ?_, ?_, ?_⟩
    · rw [List.length_set, hdlen]; omega
    · intro i hi0 hilen hine hpne
      rw [List.length_set, hdlen] at hilen
      by_cases hih : i = (adjustDownLoopF len l 0 len).2
      · have hpos0 : 0 < (adjustDownLoopF len l 0 len).2 := by omega
        rw [hih, prioAt_set_self _ _ _ (by rw [hdlen]; exact di.hlt),
          prioAt_set_ne _ _ _ _ (by omega)]
        exact di.childGrand (len - 1) (by omega) (by omega) (by omega) hpos0
      · by_cases hpih : (i - 1) / 2 = (adjustDownLoopF len l 0 len).2
        · exfalso; omega
        · rw [prioAt_set_ne _ _ ((i - 1) / 2) _ (by omega),
            prioAt_set_ne _ _ i _ (by omega)]
          exact di.pairsOff i hi0 hilen hih hpih
    · intro c hc0 hclen hcp
      rw [List.length_set, hdlen] at hclen
      omega
    · intro c hc0 hclen hcp hx
      rw [List.length_set, hdlen] at hclen
      omega
  case isFalse hcond =>
    refine pushHeapLoopF_isHeap _ _ _ _ (Nat.lt_succ_self _) ?_
    refine ⟨by rw [hdlen]; exact di.hlt, ?_, ?_, ?_⟩
    · intro i hi0 hilen hine hpne
      rw [hdlen] at hilen
      exact di.pairsOff i hi0 hilen hine hpne
    · intro c hc0 hclen hcp
      rw [hdlen] at hclen
      omega
    · intro c hc0 hclen hcp hp0
      rw [hdlen] at hclen
      omega

theorem length_adjustHeap (l : List (Nat × Nat)) (len : Nat) (value : Nat × Nat) :
    (adjustHeap l len value).length = l.length := by
  unfold adjustHeap adjustDownLoop pushHeapLoop
  split
  · rw [length_pushHeapLoopF, List.length_set, length_adjustDownLoopF]
  · rw [length_pushHeapLoopF, length_adjustDownLoopF]

theorem mem_adjustHeap (l : List (Nat × Nat)) (len : Nat) (value : Nat × Nat)
    (hl : l.length = len) (h0 : 0 < len) (hh : IsHeap l) :
    ∀ y ∈ adjustHeap l len value, y ∈ l ∨ y = value := by
  have hdi : DownInv l 0 len := by
    refine ⟨hl, h0, ?_, ?_⟩
    · intro i hi0 hilen _ _
      exact hh i hi0 (by omega)
    · intro c _ _ _ hp0
      exact absurd hp0 (by omega)
  obtain ⟨di, hstop⟩ := adjustDownLoopF_spec len l 0 len (by omega) hdi
  have hdq := di.hlt
  have hdlen : ((adjustDownLoopF len l 0 len).1).length = len := by
    rw [length_adjustDownLoopF]; exact hl
  have hmemdl : ∀ y ∈ (adjustDownLoopF len l 0 len).1, y ∈ l :=
    mem_adjustDownLoopF len l 0 len (by omega)
  intro y hy
  unfold adjustHeap adjustDownLoop pushHeapLoop at hy
  split at hy
  case isTrue hcond =>
    obtain ⟨heven, h2len, hpos⟩ := hcond
    have hidx : 2 * ((adjustDownLoopF len l 0 len).2 + 1) - 1 = len - 1 := by omega
    rw [hidx] at hy
    have h4 := mem_pushHeapLoopF _ _ _ _ (by rw [List.length_set, hdlen]; omega) y hy
    rcases h4 with h5 | h5
    · rcases List.mem_or_eq_of_mem_set h5 with h6 | h6
      · exact Or.inl (hmemdl y h6)
      · refine Or.inl (hmemdl _ (h6 ▸ getD_mem_of_lt _ _ ?_))
        rw [hdlen]; omega
    · exact Or.inr h5
  case isFalse hcond =>
    have h4 := mem_pushHeapLoopF _ _ _ _ (by rw [hdlen]; exact di.hlt) y hy
    rcases h4 with h5 | h5
    · exact Or.inl (hmemdl y h5)
    · exact Or.inr h5

theorem heapPop_none_iff (l : List (Nat × Nat)) : heapPop l = none ↔ l = [] := by
  match l with
  | [] => simp [heapPop]
  | [a] => simp [heapPop]
  | a :: b :: t => simp [heapPop]

/-- Pop returns the root; the remainder is one element shorter, is again a
heap, and draws all its elements from the original. -/
theorem heapPop_some_spec (l : List (Nat × Nat)) (x : Nat × Nat) (rest : List (Nat × Nat))
    (hh : IsHeap l) (h : heapPop l = some (x, rest)) :
    x = l.getD 0 heapDflt ∧ rest.length + 1 = l.length ∧ IsHeap rest ∧ ∀ y ∈ rest, y ∈ l := by
  match l with
  | [] => simp [heapPop] at h
  | [a] =>
    simp only [heapPop, Option.some.injEq, Prod.mk.injEq] at h
    obtain ⟨hx, hrest⟩ := h
    subst hx; subst hrest
    refine ⟨rfl, rfl, ?_, ?_⟩
    · intro i hi0 hilen
      simp at hilen
    · intro y hy
      simp at hy
  | a :: b :: t =>
    have hlen : (a :: b :: t).length = t.length + 2 := by simp
    simp only [heapPop, Option.some.injEq, Prod.mk.injEq] at h
    obtain ⟨hx, hrest⟩ := h
    have hsub : t.length + 2 - 1 = t.length + 1 := by omega
    have htake : ((a :: b :: t).take (t.length + 1)).length = t.length + 1 := by
      rw [List.length_take, hlen]; omega
    have htkheap : IsHeap ((a :: b :: t).take (t.length + 1)) := by
      intro i hi0 hilen
      rw [htake] at hilen
      rw [prioAt_take _ _ _ (by omega), prioAt_take _ _ _ (by omega)]
      exact hh i hi0 (by omega)
    constructor
    · exact hx.symm
    refine ⟨?_, ?_, ?_⟩
    · rw [← hrest, length_adjustHeap, hsub, htake, hlen]
    · rw [← hrest]
      rw [hsub]
      exact isHeap_adjustHeap _ _ _ htake (by omega) htkheap
    · intro y hy
      rw [← hrest, hsub] at hy
      rcases mem_adjustHeap _ _ _ htake (by omega) htkheap y hy with h5 | h5
      · exact List.mem_of_mem_take h5
      · exact h5 ▸ getD_mem_of_lt _ _ (by rw [hlen]; omega)

theorem isHeap_nil : IsHeap [] := by
  intro i hi0 hilen
  simp at hilen

/-- Draining a heap yields a priority-sorted list of elements of the heap,
of the same length. -/
theorem drainFuel_spec (fuel : Nat) :
    ∀ l : List (Nat × Nat), l.length ≤ fuel → IsHeap l →
      List.Pairwise (fun a b : Nat × Nat => a.1 ≤ b.1) (drainFuel fuel l) ∧
      (∀ y ∈ drainFuel fuel l, y ∈ l) ∧ (drainFuel fuel l).length = l.length := by
  induction fuel with
  | zero =>
    intro l hl hh
    have hnil : l = [] := List.length_eq_zero.mp (by omega)
    subst hnil
    simp [drainFuel]
  | succ fuel ih =>
    intro l hl hh
    cases hpop : heapPop l with
    | none =>
      have hnil : l = [] := (heapPop_none_iff l).mp hpop
      subst hnil
      simp [drainFuel, heapPop]
    | some pr =>
      obtain ⟨x, rest⟩ := pr
      obtain ⟨hx, hplen, hheap, hmem⟩ := heapPop_some_spec l x rest hh hpop
      have hlnil : 0 < l.length := by omega
      simp only [drainFuel, hpop]
      obtain ⟨ihp, ihm, ihl⟩ := ih rest (by omega) hheap
      refine ⟨List.pairwise_cons.mpr ⟨?_, ihp⟩, ?_, ?_⟩
      · intro b hb
        have hbl : b ∈ l := hmem b (ihm b hb)
        have h5 := isHeap_root_le_mem l hh b hbl
        rw [hx]
        exact h5
      · intro y hy
        rcases List.mem_cons.mp hy with h6 | h6
        · rw [h6, hx]
          exact getD_mem_of_lt l 0 hlnil
        · exact hmem y (ihm y h6)
      · simp only [List.length_cons, ihl]
        omega

/-- Building the batch heap by successive pushes yields a heap of the
batch's size. -/
theorem isHeap_foldl_heapPush (batch : List (Nat × Nat)) :
    ∀ acc : List (Nat × Nat), IsHeap acc →
      IsHeap (batch.foldl heapPush acc) ∧
      (batch.foldl heapPush acc).length = acc.length + batch.length := by
  induction batch with
  | nil =>
    intro acc h
    exact ⟨h, by simp⟩
  | cons x t ih =>
    intro acc h
    simp only [List.foldl_cons]
    obtain ⟨h1, h2⟩ := ih (heapPush acc x) (isHeap_heapPush acc x h)
    refine ⟨h1, ?_⟩
    rw [h2, length_heapPush]
    simp only [List.length_cons]
    omega

/-! ## The epoch scheduler as an interleaving transition system

Embedding of the raw-pointer revision of the scheduler (the second document
inside src/src/logger.cpp, lines 55-304; its scheduler logic coincides with
src/src/scheduler.cpp).  Threads: one scheduler thread running
`trx_scheduler_run`, any number of worker threads each performing one
`scheduler_request(lib_id, intent)` call, and the main thread performing one
`scheduler_shutdown()` call.  Every mutex-protected critical section of the
C++ code is one atomic transition; the interleaving of transitions is an
arbitrary action list.  Each worker's drawn priority (`get_random_priority`)
is a parameter of the worker, and the `intent` argument is ignored by the
code.  Ghost fields (`readySetCount`, `epochCount`, `releases`,
`assertionReached`) record events without influencing behaviour. -/

inductive EpochState
  | COLLECTING
  | DRAINING
deriving DecidableEq

/-- Program counter of one worker inside `scheduler_request` (src/src/logger.cpp
lines 275-304). -/
inductive WorkerPc
  | atAlloc      -- step 1: about to allocate its TrxWaitInfo on the heap
  | atPushFifo   -- step 2: about to push (priority, lib_id) under pending_queue_mutex
  | atInsertMap  -- step 3: about to insert the raw pointer under scheduler_global_mutex
  | atWait       -- step 4: parked in cv.wait until is_ready
  | doneRequest  -- step 5: observed is_ready, deleted the waiter, returned
deriving DecidableEq

/-- One worker thread: its program counter, its request parameters, and its
`TrxWaitInfo` object (`is_ready` flag plus an allocation bit standing for the
object's lifetime).  `readySetCount` is a ghost counter of producer writes to
`is_ready`. -/
structure WorkerState where
  pc : WorkerPc
  lib_id : Nat
  priority : Nat
  waiterAllocated : Bool
  is_ready : Bool
  readySetCount : Nat
deriving DecidableEq

/-- Program counter of the scheduler thread inside `trx_scheduler_run`
(src/src/logger.cpp lines 145-219). -/
inductive SchedPc
  | schedLoop            -- at the top of the while loop
  | schedTransfer        -- holding local_pending, about to flush it into scheduler_queue
  | schedNotify (w : Nat) -- popped and erased a map entry; about to set is_ready and notify
  | schedExited          -- left the loop; the thread is joinable
deriving DecidableEq

/-- Program counter of the main thread inside `scheduler_shutdown`
(src/src/logger.cpp lines 248-272). -/
inductive MainPc
  | mainIdle     -- shutdown not yet called
  | mainJoining  -- exchanged the running flag to false; in scheduler_thread.join()
  | mainCleanup  -- joined; about to force-release every waiter left in the map
  | mainDone     -- scheduler_shutdown returned
deriving DecidableEq

/-- Whole shared state of the scheduler subsystem, plus ghost fields. -/
structure SchedulerModelState where
  workers : List WorkerState
  pending_requests : List (Nat × Nat)
  local_pending : List (Nat × Nat)
  scheduler_queue : List (Nat × Nat)
  trx_wait_map : List (Nat × Nat)
  g_epoch_state : EpochState
  scheduler_running : Bool
  schedPc : SchedPc
  mainPc : MainPc
  assertionReached : Bool
  epochCount : Nat
  releases : List (Nat × Nat)
deriving DecidableEq

/-- Lookup in `trx_wait_map` (`std::unordered_map::find`). -/
def lookupWaiter (k : Nat) : List (Nat × Nat) → Option Nat
  | [] => none
  | e :: t => if e.1 = k then some e.2 else lookupWaiter k t

/-- Erasure from `trx_wait_map` (`std::unordered_map::erase`). -/
def eraseWaiter (k : Nat) (m : List (Nat × Nat)) : List (Nat × Nat) :=
  m.filter (fun e => e.1 != k)

/-- Assignment `trx_wait_map[k] = v` (`operator[]` overwrites any previous
entry for the key). -/
def insertWaiter (k v : Nat) (m : List (Nat × Nat)) : List (Nat × Nat) :=
  (k, v) :: eraseWaiter k m

/-- One transition of worker `i` inside `scheduler_request` (src/src/logger.cpp
lines 275-304).  A worker past its current guard, or an out-of-range index,
leaves the state unchanged. -/
def stepWorker (i : Nat) (s : SchedulerModelState) : SchedulerModelState :=
  match s.workers[i]? with
  | none => s
  | some w =>
    match w.pc with
    | .atAlloc =>
      { s with workers :=
          s.workers.set i { w with pc := .atPushFifo, waiterAllocated := true, is_ready := false } }
    | .atPushFifo =>
      { s with
        pending_requests := s.pending_requests ++ [(w.priority, w.lib_id)]
        workers := s.workers.set i { w with pc := .atInsertMap } }
    | .atInsertMap =>
      { s with
        trx_wait_map := insertWaiter w.lib_id i s.trx_wait_map
        workers := s.workers.set i { w with pc := .atWait } }
    | .atWait =>
      if w.is_ready then
        { s with workers :=
            s.workers.set i { w with pc := .doneRequest, waiterAllocated := false } }
      else s
    | .doneRequest => s

/-- One transition of the scheduler thread inside `trx_scheduler_run`
(src/src/logger.cpp lines 145-219): the loop-top running check and phase
dispatch, the pending-FIFO grab, the transfer into the priority queue, one
DRAINING pop (with the map lookup whose else branch carries
`assert(false && "Scheduler found a transaction ID with no waiter info.")`),
or the deferred notify of a popped waiter. -/
def stepSched (s : SchedulerModelState) : SchedulerModelState :=
  match s.schedPc with
  | .schedExited => s
  | .schedLoop =>
    if s.scheduler_running = false then { s with schedPc := .schedExited }
    else
      match s.g_epoch_state with
      | .COLLECTING =>
        if s.pending_requests = [] then s
        else
          { s with
            local_pending := s.pending_requests
            pending_requests := []
            schedPc := .schedTransfer }
      | .DRAINING =>
        match heapPop s.scheduler_queue with
        | none => { s with g_epoch_state := .COLLECTING }
        | some (e, q2) =>
          match lookupWaiter e.2 s.trx_wait_map with
          | some wi =>
            { s with
              scheduler_queue := q2
              trx_wait_map := eraseWaiter e.2 s.trx_wait_map
              schedPc := .schedNotify wi }
          | none =>
            { s with scheduler_queue := q2, assertionReached := true }
  | .schedTransfer =>
    { s with
      scheduler_queue := s.local_pending.foldl heapPush s.scheduler_queue
      local_pending := []
      g_epoch_state := .DRAINING
      epochCount := s.epochCount + 1
      schedPc := .schedLoop }
  | .schedNotify wi =>
    match s.workers[wi]? with
    | none => { s with schedPc := .schedLoop }
    | some w =>
      { s with
        workers :=
          s.workers.set wi { w with is_ready := true, readySetCount := w.readySetCount + 1 }
        releases := s.releases ++ [(s.epochCount, w.lib_id)]
        schedPc := .schedLoop }

/-- Force release of every waiter left in the map during
`scheduler_shutdown` (src/src/logger.cpp lines 259-263): set `is_ready`,
notify.  Deletion is NOT performed here; it remains with the worker. -/
def forceReleaseWaiters (m : List (Nat × Nat)) (ws : List WorkerState) : List WorkerState :=
  match m with
  | [] => ws
  | e :: t =>
    forceReleaseWaiters t
      (match ws[e.2]? with
       | none => ws
       | some w => ws.set e.2 { w with is_ready := true, readySetCount := w.readySetCount + 1 })

/-- One transition of the main thread inside `scheduler_shutdown`
(src/src/logger.cpp lines 248-272): the exchange of the running flag, the
join (enabled only once the scheduler thread has exited its loop), and the
force-release-and-clear of the waiter map under the global mutex. -/
def stepMain (s : SchedulerModelState) : SchedulerModelState :=
  match s.mainPc with
  | .mainIdle =>
    if s.scheduler_running then
      { s with scheduler_running := false, mainPc := .mainJoining }
    else
      { s with mainPc := .mainDone }
  | .mainJoining =>
    if s.schedPc = .schedExited then { s with mainPc := .mainCleanup } else s
  | .mainCleanup =>
    { s with
      workers := forceReleaseWaiters s.trx_wait_map s.workers
      trx_wait_map := []
      mainPc := .mainDone }
  | .mainDone => s

/-- Interleaving action: one transition of one thread. -/
inductive SchedAction
  | workerStep (i : Nat)
  | schedStep
  | mainStep
deriving DecidableEq

def stepModel (s : SchedulerModelState) (a : SchedAction) : SchedulerModelState :=
  match a with
  | .workerStep i => stepWorker i s
  | .schedStep => stepSched s
  | .mainStep => stepMain s

def runModel (s : SchedulerModelState) (tr : List SchedAction) : SchedulerModelState :=
  tr.foldl stepModel s

/-- A worker that has not yet entered `scheduler_request`, parameterised by
its `(lib_id, priority)` pair. -/
def initWorker (p : Nat × Nat) : WorkerState :=
  { pc := .atAlloc, lib_id := p.1, priority := p.2
    waiterAllocated := false, is_ready := false, readySetCount := 0 }

/-- State right after `scheduler_init` succeeded: scheduler thread running at
its loop top in COLLECTING, all queues and the map empty, shutdown not yet
called, and one worker per requested `(lib_id, priority)` pair. -/
def initModel (reqs : List (Nat × Nat)) : SchedulerModelState :=
  { workers := reqs.map initWorker
    pending_requests := []
    local_pending := []
    scheduler_queue := []
    trx_wait_map := []
    g_epoch_state := .COLLECTING
    scheduler_running := true
    schedPc := .schedLoop
    mainPc := .mainIdle
    assertionReached := false
    epochCount := 0
    releases := [] }

/-- Reachability from the initial state with the given worker parameters. -/
def ReachableFrom (reqs : List (Nat × Nat)) (s : SchedulerModelState) : Prop :=
  ∃ tr : List SchedAction, runModel (initModel reqs) tr = s

theorem mem_eraseWaiter (e : Nat × Nat) (k : Nat) (m : List (Nat × Nat))
    (h : e ∈ eraseWaiter k m) : e ∈ m ∧ e.1 ≠ k := by
  simp only [eraseWaiter, List.mem_filter] at h
  exact ⟨h.1, by simpa using h.2⟩

theorem lookupWaiter_eq_none (k : Nat) (m : List (Nat × Nat))
    (h : ∀ e ∈ m, e.1 ≠ k) : lookupWaiter k m = none := by
  induction m with
  | nil => rfl
  | cons e t ih =>
    simp only [lookupWaiter]
    rw [if_neg (h e (List.mem_cons_self e t)), ih]
    intro e2 he2
    exact h e2 (List.mem_cons_of_mem _ he2)

theorem lookupWaiter_erase_self (k : Nat) (m : List (Nat × Nat)) :
    lookupWaiter k (eraseWaiter k m) = none :=
  lookupWaiter_eq_none k _ (fun e he => (mem_eraseWaiter e k m he).2)

theorem eraseWaiter_cons_self (k : Nat) (e : Nat × Nat) (t : List (Nat × Nat))
    (he : e.1 = k) : eraseWaiter k (e :: t) = eraseWaiter k t := by
  simp [eraseWaiter, List.filter_cons, he]

theorem eraseWaiter_cons_ne (k : Nat) (e : Nat × Nat) (t : List (Nat × Nat))
    (he : e.1 ≠ k) : eraseWaiter k (e :: t) = e :: eraseWaiter k t := by
  simp [eraseWaiter, List.filter_cons, he]

theorem lookupWaiter_erase_ne (k k2 : Nat) (m : List (Nat × Nat)) (h : k2 ≠ k) :
    lookupWaiter k2 (eraseWaiter k m) = lookupWaiter k2 m := by
  induction m with
  | nil => rfl
  | cons e t ih =>
    by_cases he : e.1 = k
    · rw [eraseWaiter_cons_self k e t he, ih]
      have hne : ¬ e.1 = k2 := by omega
      simp [lookupWaiter, hne]
    · rw [eraseWaiter_cons_ne k e t he]
      simp only [lookupWaiter]
      split
      · rfl
      · exact ih

theorem lookupWaiter_insert_self (k v : Nat) (m : List (Nat × Nat)) :
    lookupWaiter k (insertWaiter k v m) = some v := by
  simp [insertWaiter, lookupWaiter]

theorem lookupWaiter_insert_ne (k v k2 : Nat) (m : List (Nat × Nat)) (h : k2 ≠ k) :
    lookupWaiter k2 (insertWaiter k v m) = lookupWaiter k2 m := by
  simp only [insertWaiter, lookupWaiter, if_neg (show ¬ k = k2 from by omega)]
  exact lookupWaiter_erase_ne k k2 m h

theorem mem_insertWaiter (e : Nat × Nat) (k v : Nat) (m : List (Nat × Nat))
    (h : e ∈ insertWaiter k v m) : e = (k, v) ∨ (e ∈ m ∧ e.1 ≠ k) := by
  simp only [insertWaiter, List.mem_cons] at h
  rcases h with h | h
  · exact Or.inl h
  · exact Or.inr (mem_eraseWaiter e k m h)

theorem keysDistinct_eraseWaiter (k : Nat) (m : List (Nat × Nat))
    (h : List.Pairwise (fun a b : Nat × Nat => a.1 ≠ b.1) m) :
    List.Pairwise (fun a b : Nat × Nat => a.1 ≠ b.1) (eraseWaiter k m) :=
  List.Pairwise.sublist (List.filter_sublist m) h

theorem keysDistinct_insertWaiter (k v : Nat) (m : List (Nat × Nat))
    (h : List.Pairwise (fun a b : Nat × Nat => a.1 ≠ b.1) m) :
    List.Pairwise (fun a b : Nat × Nat => a.1 ≠ b.1) (insertWaiter k v m) := by
  refine List.pairwise_cons.mpr ⟨?_, keysDistinct_eraseWaiter k m h⟩
  intro e he
  have h2 := mem_eraseWaiter e k m he
  omega

theorem lookupWaiter_mem (k : Nat) (m : List (Nat × Nat)) (v : Nat)
    (h : lookupWaiter k m = some v) : (k, v) ∈ m := by
  induction m with
  | nil => simp [lookupWaiter] at h
  | cons e t ih =>
    simp only [lookupWaiter] at h
    split at h
    case isTrue he =>
      rw [Option.some.injEq] at h
      have he2 : e = (k, v) := by
        obtain ⟨e1, e2⟩ := e
        simp_all
      rw [← he2]
      exact List.mem_cons_self e t
    case isFalse he =>
      exact List.mem_cons_of_mem _ (ih h)

theorem lookupWaiter_ne_none (k : Nat) (m : List (Nat × Nat)) (v : Nat)
    (h : (k, v) ∈ m) : lookupWaiter k m ≠ none := by
  induction m with
  | nil => simp at h
  | cons e t ih =>
    simp only [lookupWaiter]
    rcases List.mem_cons.mp h with h1 | h1
    · rw [if_pos (by rw [← h1])]
      simp
    · split
      · simp
      · exact ih h1

theorem lt_length_of_getElem?_eq_some {α : Type} (l : List α) (j : Nat) (w : α)
    (h : l[j]? = some w) : j < l.length := by
  by_contra hc
  rw [List.getElem?_eq_none (by omega)] at h
  exact Option.noConfusion h

theorem forceReleaseWaiters_untouched (m : List (Nat × Nat)) :
    ∀ (ws : List WorkerState) (j : Nat), (∀ e ∈ m, e.2 ≠ j) →
      (forceReleaseWaiters m ws)[j]? = ws[j]? := by
  induction m with
  | nil => intro ws j _; rfl
  | cons e t ih =>
    intro ws j hj
    simp only [forceReleaseWaiters]
    rw [ih _ j (fun e2 he2 => hj e2 (List.mem_cons_of_mem _ he2))]
    split
    · rfl
    · exact List.getElem?_set_ne (hj e (List.mem_cons_self e t))

theorem forceReleaseWaiters_touched (m : List (Nat × Nat)) :
    ∀ (ws : List WorkerState) (j : Nat) (w : WorkerState),
      List.Pairwise (fun a b : Nat × Nat => a.2 ≠ b.2) m →
      ws[j]? = some w → (∃ e ∈ m, e.2 = j) →
      (forceReleaseWaiters m ws)[j]? =
        some { w with is_ready := true, readySetCount := w.readySetCount + 1 } := by
  induction m with
  | nil =>
    intro ws j w _ _ hmem
    simp at hmem
  | cons e t ih =>
    intro ws j w hdist hw hmem
    obtain ⟨e0, he0, he0j⟩ := hmem
    simp only [forceReleaseWaiters]
    rcases List.mem_cons.mp he0 with h1 | h1
    · have hej : e.2 = j := by rw [← h1]; exact he0j
      rw [hej, hw]
      have hnotouch : ∀ e2 ∈ t, e2.2 ≠ j := by
        intro e2 he2
        have := (List.pairwise_cons.mp hdist).1 e2 he2
        omega
      rw [forceReleaseWaiters_untouched t _ j hnotouch]
      exact List.getElem?_set_self (lt_length_of_getElem?_eq_some ws j w hw)
    · have hej : e.2 ≠ j := by
        have := (List.pairwise_cons.mp hdist).1 e0 h1
        omega
      have htl := (List.pairwise_cons.mp hdist).2
      split
      · exact ih ws j w htl hw ⟨e0, h1, he0j⟩
      case h_2 w0 hw0 =>
        refine ih _ j w htl ?_ ⟨e0, h1, he0j⟩
        rw [List.getElem?_set_ne hej]
        exact hw

theorem map_libprio_set (ws : List WorkerState) (i : Nat) (w w2 : WorkerState)
    (hw : ws[i]? = some w) (hl : w2.lib_id = w.lib_id) (hp : w2.priority = w.priority) :
    (ws.set i w2).map (fun x => (x.lib_id, x.priority)) =
      ws.map (fun x => (x.lib_id, x.priority)) := by
  induction ws generalizing i with
  | nil => rfl
  | cons a t ih =>
    cases i with
    | zero =>
      simp only [List.getElem?_cons_zero, Option.some.injEq] at hw
      subst hw
      simp [List.set, hl, hp]
    | succ n =>
      simp only [List.getElem?_cons_succ] at hw
      simp only [List.set, List.map_cons]
      rw [ih n hw]

theorem forceReleaseWaiters_map_libprio (m : List (Nat × Nat)) :
    ∀ ws : List WorkerState,
      (forceReleaseWaiters m ws).map (fun x => (x.lib_id, x.priority)) =
        ws.map (fun x => (x.lib_id, x.priority)) := by
  induction m with
  | nil => intro ws; rfl
  | cons e t ih =>
    intro ws
    simp only [forceReleaseWaiters]
    rw [ih]
    split
    · rfl
    case h_2 w0 hw0 =>
      exact map_libprio_set ws e.2 w0 _ hw0 rfl rfl

/-- Per-worker invariant, tied to the worker's program counter: before the
map insert, the worker has no map entry, no pending notify, and an unset
flag; while parked, exactly one of (map entry present), (notify pending), or
(flag already set once) holds; after returning, the flag was set exactly
once and the waiter is freed. -/
def WorkerPhase (m : List (Nat × Nat)) (sp : SchedPc) (i : Nat) (w : WorkerState) : Prop :=
  match w.pc with
  | .atAlloc =>
      lookupWaiter w.lib_id m = none ∧ w.readySetCount = 0 ∧
      sp ≠ .schedNotify i ∧ w.is_ready = false ∧ w.waiterAllocated = false
  | .atPushFifo =>
      lookupWaiter w.lib_id m = none ∧ w.readySetCount = 0 ∧
      sp ≠ .schedNotify i ∧ w.is_ready = false ∧ w.waiterAllocated = true
  | .atInsertMap =>
      lookupWaiter w.lib_id m = none ∧ w.readySetCount = 0 ∧
      sp ≠ .schedNotify i ∧ w.is_ready = false ∧ w.waiterAllocated = true
  | .atWait =>
      w.waiterAllocated = true ∧
      ((lookupWaiter w.lib_id m = some i ∧ w.is_ready = false ∧
          w.readySetCount = 0 ∧ sp ≠ .schedNotify i) ∨
       (sp = .schedNotify i ∧ w.is_ready = false ∧ w.readySetCount = 0 ∧
          lookupWaiter w.lib_id m = none) ∨
       (w.is_ready = true ∧ w.readySetCount = 1 ∧
          lookupWaiter w.lib_id m = none ∧ sp ≠ .schedNotify i))
  | .doneRequest =>
      w.is_ready = true ∧ w.readySetCount = 1 ∧
      lookupWaiter w.lib_id m = none ∧ sp ≠ .schedNotify i ∧
      w.waiterAllocated = false

/-- Global inductive invariant of the scheduler model. -/
structure SchedInv (reqs : List (Nat × Nat)) (s : SchedulerModelState) : Prop where
  staticWF : s.workers.map (fun x => (x.lib_id, x.priority)) = reqs
  mapWF : ∀ e ∈ s.trx_wait_map, ∃ w, s.workers[e.2]? = some w ∧ w.lib_id = e.1 ∧
    w.pc = .atWait ∧ w.is_ready = false ∧ w.readySetCount = 0
  mapKeys : List.Pairwise (fun a b : Nat × Nat => a.1 ≠ b.1) s.trx_wait_map
  notifyWF : ∀ i, s.schedPc = .schedNotify i → ∃ w, s.workers[i]? = some w ∧
    w.pc = .atWait ∧ w.is_ready = false ∧ w.readySetCount = 0 ∧
    lookupWaiter w.lib_id s.trx_wait_map = none
  collectEmpty : s.g_epoch_state = .COLLECTING → s.scheduler_queue = []
  transferCollect : s.schedPc = .schedTransfer → s.g_epoch_state = .COLLECTING
  releaseBound : ∀ e ∈ s.releases, e.1 ≤ s.epochCount
  releaseSorted : List.Pairwise (fun a b : Nat × Nat => a.1 ≤ b.1) s.releases
  mainIdleRunning : s.mainPc = .mainIdle → s.scheduler_running = true
  mainCleanupExited : s.mainPc = .mainCleanup → s.schedPc = .schedExited
  mainDoneExited : s.mainPc = .mainDone → s.schedPc = .schedExited
  phases : ∀ i w, s.workers[i]? = some w → WorkerPhase s.trx_wait_map s.schedPc i w

/-- Workers with distinct requested lib_ids have distinct `lib_id` fields. -/
theorem workers_libid_ne (reqs : List (Nat × Nat)) (s : SchedulerModelState)
    (hdist : List.Pairwise (fun a b : Nat × Nat => a.1 ≠ b.1) reqs)
    (hstatic : s.workers.map (fun x => (x.lib_id, x.priority)) = reqs) :
    ∀ (i j : Nat) (wi wj : WorkerState), i ≠ j →
      s.workers[i]? = some wi → s.workers[j]? = some wj → wi.lib_id ≠ wj.lib_id := by
  intro i j wi wj hij hwi hwj
  have hp : List.Pairwise (fun a b : WorkerState => a.lib_id ≠ b.lib_id) s.workers := by
    rw [← hstatic, List.pairwise_map] at hdist
    exact hdist
  have hi := lt_length_of_getElem?_eq_some _ _ _ hwi
  have hj := lt_length_of_getElem?_eq_some _ _ _ hwj
  rw [List.getElem?_eq_getElem hi, Option.some.injEq] at hwi
  rw [List.getElem?_eq_getElem hj, Option.some.injEq] at hwj
  subst hwi
  subst hwj
  rcases Nat.lt_or_ge i j with h | h
  · exact List.pairwise_iff_getElem.mp hp i j hi hj h
  · exact (List.pairwise_iff_getElem.mp hp j i hj hi (by omega)).symm

/-- The initial state satisfies the invariant. -/
theorem schedInv_init (reqs : List (Nat × Nat)) : SchedInv reqs (initModel reqs) := by
  refine ⟨?_, ?_, ?_, ?_, ?_, ?_, ?_, ?_, ?_, ?_, ?_, ?_⟩
  · show (reqs.map initWorker).map (fun x => (x.lib_id, x.priority)) = reqs
    rw [List.map_map]
    have hcomp : ((fun x : WorkerState => (x.lib_id, x.priority)) ∘ initWorker) = id := by
      funext p
      rfl
    rw [hcomp, List.map_id]
  · intro e he; simp [initModel] at he
  · simp [initModel]
  · intro i h; simp [initModel] at h
  · intro _; rfl
  · intro h; simp [initModel] at h
  · intro e he; simp [initModel] at he
  · simp [initModel]
  · intro _; rfl
  · intro h; simp [initModel] at h
  · intro h; simp [initModel] at h
  · intro i w hw
    simp only [initModel, List.getElem?_map] at hw
    cases hr : reqs[i]? with
    | none => rw [hr] at hw; exact Option.noConfusion hw
    | some p =>
      rw [hr] at hw
      simp only [Option.map_some', Option.some.injEq] at hw
      subst hw
      exact ⟨rfl, rfl, by simp [initModel], rfl, rfl⟩

/-- A worker's phase only reads the map through its own key. -/
theorem workerPhase_mapeq (m m2 : List (Nat × Nat)) (sp : SchedPc) (i : Nat) (w : WorkerState)
    (heq : lookupWaiter w.lib_id m2 = lookupWaiter w.lib_id m) :
    WorkerPhase m sp i w → WorkerPhase m2 sp i w := by
  intro h
  unfold WorkerPhase at h ⊢
  rw [heq]
  exact h

/-- A worker's phase only reads the scheduler pc through "is it my notify". -/
theorem workerPhase_sp (m : List (Nat × Nat)) (sp sp2 : SchedPc) (i : Nat) (w : WorkerState)
    (hsp : (sp2 = SchedPc.schedNotify i) ↔ (sp = SchedPc.schedNotify i)) :
    WorkerPhase m sp i w → WorkerPhase m sp2 i w := by
  intro h
  unfold WorkerPhase at h ⊢
  simp only [ne_eq] at h ⊢
  rw [show (sp2 = SchedPc.schedNotify i) = (sp = SchedPc.schedNotify i) from propext hsp]
  exact h

/-- Any transition of a worker thread preserves the invariant. -/
theorem schedInv_stepWorker (reqs : List (Nat × Nat))
    (hdist : List.Pairwise (fun a b : Nat × Nat => a.1 ≠ b.1) reqs)
    (s : SchedulerModelState) (inv : SchedInv reqs s) (i : Nat) :
    SchedInv reqs (stepWorker i s) := by
  cases hwi : s.workers[i]? with
  | none => simpa [stepWorker, hwi] using inv
  | some w =>
    have hilen : i < s.workers.length := lt_length_of_getElem?_eq_some _ _ _ hwi
    have hphase := inv.phases i w hwi
    cases hpc : w.pc with
    | atAlloc =>
      simp only [WorkerPhase, hpc] at hphase
      simp only [stepWorker, hwi, hpc]
      obtain ⟨hlk, hcnt, hnsp, hrdy, halloc⟩ := hphase
      refine ⟨?_, ?_, inv.mapKeys, ?_, inv.collectEmpty, inv.transferCollect,
        inv.releaseBound, inv.releaseSorted, inv.mainIdleRunning, inv.mainCleanupExited,
        inv.mainDoneExited, ?_⟩
      · exact (map_libprio_set s.workers i w ({ w with pc := .atPushFifo, waiterAllocated := true, is_ready := false }) hwi rfl rfl).trans inv.staticWF
      · intro e he
        obtain ⟨w3, hw3, hl3, hpc3, hr3, hc3⟩ := inv.mapWF e he
        have hne : e.2 ≠ i := by
          intro hcontra
          rw [hcontra, hwi, Option.some.injEq] at hw3
          rw [← hw3] at hpc3
          rw [hpc] at hpc3
          exact WorkerPc.noConfusion hpc3
        exact ⟨w3, by rw [List.getElem?_set_ne (by omega)]; exact hw3, hl3, hpc3, hr3, hc3⟩
      · intro j hj
        have hji : j ≠ i := by
          intro hcontra
          rw [← hcontra] at hnsp
          exact hnsp hj
        obtain ⟨wj, hwj, h1, h2, h3, h4⟩ := inv.notifyWF j hj
        exact ⟨wj, by rw [List.getElem?_set_ne (by omega)]; exact hwj, h1, h2, h3, h4⟩
      · intro j wj hwj
        by_cases hji : j = i
        · subst hji
          rw [List.getElem?_set_self hilen, Option.some.injEq] at hwj
          subst hwj
          exact ⟨hlk, hcnt, hnsp, rfl, rfl⟩
        · rw [List.getElem?_set_ne (by omega)] at hwj
          exact inv.phases j wj hwj
    | atPushFifo =>
      simp only [WorkerPhase, hpc] at hphase
      simp only [stepWorker, hwi, hpc]
      obtain ⟨hlk, hcnt, hnsp, hrdy, halloc⟩ := hphase
      refine ⟨?_, ?_, inv.mapKeys, ?_, inv.collectEmpty, inv.transferCollect,
        inv.releaseBound, inv.releaseSorted, inv.mainIdleRunning, inv.mainCleanupExited,
        inv.mainDoneExited, ?_⟩
      · exact (map_libprio_set s.workers i w ({ w with pc := .atInsertMap }) hwi rfl rfl).trans inv.staticWF
      · intro e he
        obtain ⟨w3, hw3, hl3, hpc3, hr3, hc3⟩ := inv.mapWF e he
        have hne : e.2 ≠ i := by
          intro hcontra
          rw [hcontra, hwi, Option.some.injEq] at hw3
          rw [← hw3] at hpc3
          rw [hpc] at hpc3
          exact WorkerPc.noConfusion hpc3
        exact ⟨w3, by rw [List.getElem?_set_ne (by omega)]; exact hw3, hl3, hpc3, hr3, hc3⟩
      · intro j hj
        have hji : j ≠ i := by
          intro hcontra
          rw [← hcontra] at hnsp
          exact hnsp hj
        obtain ⟨wj, hwj, h1, h2, h3, h4⟩ := inv.notifyWF j hj
        exact ⟨wj, by rw [List.getElem?_set_ne (by omega)]; exact hwj, h1, h2, h3, h4⟩
      · intro j wj hwj
        by_cases hji : j = i
        · subst hji
          rw [List.getElem?_set_self hilen, Option.some.injEq] at hwj
          subst hwj
          exact ⟨hlk, hcnt, hnsp, hrdy, halloc⟩
        · rw [List.getElem?_set_ne (by omega)] at hwj
          exact inv.phases j wj hwj
    | atInsertMap =>
      simp only [WorkerPhase, hpc] at hphase
      simp only [stepWorker, hwi, hpc]
      obtain ⟨hlk, hcnt, hnsp, hrdy, halloc⟩ := hphase
      have hlibne : ∀ (j : Nat) (wj : WorkerState), j ≠ i → s.workers[j]? = some wj →
          wj.lib_id ≠ w.lib_id :=
        fun j wj hji hwj => workers_libid_ne reqs s hdist inv.staticWF j i wj w hji hwj hwi
      refine ⟨?_, ?_, keysDistinct_insertWaiter _ _ _ inv.mapKeys, ?_, inv.collectEmpty,
        inv.transferCollect, inv.releaseBound, inv.releaseSorted, inv.mainIdleRunning,
        inv.mainCleanupExited, inv.mainDoneExited, ?_⟩
      · exact (map_libprio_set s.workers i w ({ w with pc := .atWait }) hwi rfl rfl).trans inv.staticWF
      · intro e he
        rcases mem_insertWaiter e _ _ _ he with hnew | ⟨hold, hkey⟩
        · subst hnew
          refine ⟨{ w with pc := .atWait }, ?_, rfl, rfl, hrdy, hcnt⟩
          rw [List.getElem?_set_self hilen]
        · obtain ⟨w3, hw3, hl3, hpc3, hr3, hc3⟩ := inv.mapWF e hold
          have hne : e.2 ≠ i := by
            intro hcontra
            rw [hcontra, hwi, Option.some.injEq] at hw3
            rw [← hw3] at hpc3
            rw [hpc] at hpc3
            exact WorkerPc.noConfusion hpc3
          exact ⟨w3, by rw [List.getElem?_set_ne (by omega)]; exact hw3, hl3, hpc3, hr3, hc3⟩
      · intro j hj
        have hji : j ≠ i := by
          intro hcontra
          rw [← hcontra] at hnsp
          exact hnsp hj
        obtain ⟨wj, hwj, h1, h2, h3, h4⟩ := inv.notifyWF j hj
        refine ⟨wj, by rw [List.getElem?_set_ne (by omega)]; exact hwj, h1, h2, h3, ?_⟩
        rw [lookupWaiter_insert_ne _ _ _ _ (hlibne j wj hji hwj)]
        exact h4
      · intro j wj hwj
        by_cases hji : j = i
        · subst hji
          rw [List.getElem?_set_self hilen, Option.some.injEq] at hwj
          subst hwj
          refine ⟨halloc, Or.inl ⟨?_, hrdy, hcnt, hnsp⟩⟩
          exact lookupWaiter_insert_self _ _ _
        · rw [List.getElem?_set_ne (by omega)] at hwj
          refine workerPhase_mapeq _ _ _ _ _ ?_ (inv.phases j wj hwj)
          exact lookupWaiter_insert_ne _ _ _ _ (hlibne j wj hji hwj)
    | atWait =>
      simp only [WorkerPhase, hpc] at hphase
      obtain ⟨halloc, harm⟩ := hphase
      simp only [stepWorker, hwi, hpc]
      by_cases hrdy : w.is_ready = true
      · rw [if_pos hrdy]
        have harm3 : w.readySetCount = 1 ∧
            lookupWaiter w.lib_id s.trx_wait_map = none ∧
            s.schedPc ≠ .schedNotify i := by
          rcases harm with ⟨_, hr, _, _⟩ | ⟨_, hr, _, _⟩ | ⟨_, h1, h2, h3⟩
          · rw [hrdy] at hr; exact Bool.noConfusion hr
          · rw [hrdy] at hr; exact Bool.noConfusion hr
          · exact ⟨h1, h2, h3⟩
        obtain ⟨hcnt1, hlk, hnsp⟩ := harm3
        refine ⟨?_, ?_, inv.mapKeys, ?_, inv.collectEmpty, inv.transferCollect,
          inv.releaseBound, inv.releaseSorted, inv.mainIdleRunning, inv.mainCleanupExited,
          inv.mainDoneExited, ?_⟩
        · exact (map_libprio_set s.workers i w ({ w with pc := .doneRequest, waiterAllocated := false }) hwi rfl rfl).trans inv.staticWF
        · intro e he
          obtain ⟨w3, hw3, hl3, hpc3, hr3, hc3⟩ := inv.mapWF e he
          have hne : e.2 ≠ i := by
            intro hcontra
            rw [hcontra, hwi, Option.some.injEq] at hw3
            rw [← hw3] at hr3
            rw [hrdy] at hr3
            exact Bool.noConfusion hr3
          exact ⟨w3, by rw [List.getElem?_set_ne (by omega)]; exact hw3, hl3, hpc3, hr3, hc3⟩
        · intro j hj
          have hji : j ≠ i := by
            intro hcontra
            rw [← hcontra] at hnsp
            exact hnsp hj
          obtain ⟨wj, hwj, h1, h2, h3, h4⟩ := inv.notifyWF j hj
          exact ⟨wj, by rw [List.getElem?_set_ne (by omega)]; exact hwj, h1, h2, h3, h4⟩
        · intro j wj hwj
          by_cases hji : j = i
          · subst hji
            rw [List.getElem?_set_self hilen, Option.some.injEq] at hwj
            subst hwj
            exact ⟨hrdy, hcnt1, hlk, hnsp, rfl⟩
          · rw [List.getElem?_set_ne (by omega)] at hwj
            exact inv.phases j wj hwj
      · rw [if_neg hrdy]
        exact inv
    | doneRequest =>
      simp only [stepWorker, hwi, hpc]
      exact inv

theorem lookupWaiter_eq_of_mem (k v : Nat) (m : List (Nat × Nat))
    (hdist : List.Pairwise (fun a b : Nat × Nat => a.1 ≠ b.1) m)
    (hm : (k, v) ∈ m) : lookupWaiter k m = some v := by
  induction m with
  | nil => simp at hm
  | cons e t ih =>
    rcases List.mem_cons.mp hm with h1 | h1
    · simp only [lookupWaiter]
      rw [if_pos (by rw [← h1])]
      rw [← h1]
    · have hne : e.1 ≠ k := by
        have := (List.pairwise_cons.mp hdist).1 (k, v) h1
        simpa using this
      simp only [lookupWaiter, if_neg hne]
      exact ih (List.pairwise_cons.mp hdist).2 h1

/-- Introduction form for the parked-worker phase. -/
theorem workerPhase_atWait_intro (m : List (Nat × Nat)) (sp : SchedPc) (i : Nat)
    (w : WorkerState) (hpc : w.pc = .atWait) (halloc : w.waiterAllocated = true)
    (harm : (lookupWaiter w.lib_id m = some i ∧ w.is_ready = false ∧
              w.readySetCount = 0 ∧ sp ≠ .schedNotify i) ∨
            (sp = .schedNotify i ∧ w.is_ready = false ∧ w.readySetCount = 0 ∧
              lookupWaiter w.lib_id m = none) ∨
            (w.is_ready = true ∧ w.readySetCount = 1 ∧
              lookupWaiter w.lib_id m = none ∧ sp ≠ .schedNotify i)) :
    WorkerPhase m sp i w := by
  unfold WorkerPhase
  split
  case h_1 heq => rw [hpc] at heq; exact WorkerPc.noConfusion heq
  case h_2 heq => rw [hpc] at heq; exact WorkerPc.noConfusion heq
  case h_3 heq => rw [hpc] at heq; exact WorkerPc.noConfusion heq
  case h_4 heq => exact ⟨halloc, harm⟩
  case h_5 heq => rw [hpc] at heq; exact WorkerPc.noConfusion heq

/-- Any transition of the scheduler thread preserves the invariant. -/
theorem schedInv_stepSched (reqs : List (Nat × Nat))
    (s : SchedulerModelState) (inv : SchedInv reqs s) :
    SchedInv reqs (stepSched s) := by
  have hnotifyNe : ∀ (sp2 : SchedPc), (∀ j, sp2 ≠ SchedPc.schedNotify j) →
      s.schedPc = SchedPc.schedLoop ∨ s.schedPc = SchedPc.schedTransfer →
      ∀ (j : Nat) (wj : WorkerState),
        WorkerPhase s.trx_wait_map s.schedPc j wj → WorkerPhase s.trx_wait_map sp2 j wj := by
    intro sp2 h2 h1 j wj hph
    refine workerPhase_sp _ _ _ _ _ ?_ hph
    constructor
    · intro h
      exact absurd h (h2 j)
    · intro h
      rcases h1 with h1 | h1 <;> rw [h1] at h <;> exact SchedPc.noConfusion h
  cases hsp : s.schedPc with
  | schedExited =>
    simpa [stepSched, hsp] using inv
  | schedLoop =>
    simp only [stepSched, hsp]
    split
    case isTrue hrun =>
      refine ⟨inv.staticWF, inv.mapWF, inv.mapKeys, ?_, inv.collectEmpty, ?_,
        inv.releaseBound, inv.releaseSorted, inv.mainIdleRunning, ?_, ?_, ?_⟩
      · intro j hj
        exact SchedPc.noConfusion hj
      · intro hj
        exact SchedPc.noConfusion hj
      · intro _; rfl
      · intro _; rfl
      · intro j wj hwj
        exact hnotifyNe _ (fun j h => SchedPc.noConfusion h) (Or.inl hsp) j wj
          (hsp ▸ inv.phases j wj hwj)
    case isFalse hrun =>
      split
      next hes =>
        split
        case isTrue hpend =>
          exact inv
        case isFalse hpend =>
          refine ⟨inv.staticWF, inv.mapWF, inv.mapKeys, ?_, ?_, ?_,
            inv.releaseBound, inv.releaseSorted, inv.mainIdleRunning, ?_, ?_, ?_⟩
          · intro j hj
            exact SchedPc.noConfusion hj
          · intro _
            exact inv.collectEmpty hes
          · intro _
            exact hes
          · intro h
            rw [inv.mainCleanupExited h] at hsp
            exact SchedPc.noConfusion hsp
          · intro h
            rw [inv.mainDoneExited h] at hsp
            exact SchedPc.noConfusion hsp
          · intro j wj hwj
            exact hnotifyNe _ (fun j h => SchedPc.noConfusion h) (Or.inl hsp) j wj
              (hsp ▸ inv.phases j wj hwj)
      next hes =>
        split
        next hpop =>
          refine ⟨inv.staticWF, inv.mapWF, inv.mapKeys, ?_, ?_, ?_,
            inv.releaseBound, inv.releaseSorted, inv.mainIdleRunning, ?_, ?_, ?_⟩
          · intro j hj
            exact SchedPc.noConfusion hj
          · intro _
            exact (heapPop_none_iff _).mp hpop
          · intro _
            rfl
          · intro h
            rw [inv.mainCleanupExited h] at hsp
            exact SchedPc.noConfusion hsp
          · intro h
            rw [inv.mainDoneExited h] at hsp
            exact SchedPc.noConfusion hsp
          · intro j wj hwj
            exact hsp ▸ inv.phases j wj hwj
        next e q2 hpop =>
          split
          next wi hlk =>
            have hmem : (e.2, wi) ∈ s.trx_wait_map := lookupWaiter_mem _ _ _ hlk
            obtain ⟨w, hw, hwlib, hwpc, hwrdy, hwcnt⟩ := inv.mapWF (e.2, wi) hmem
            refine ⟨inv.staticWF, ?_, keysDistinct_eraseWaiter _ _ inv.mapKeys, ?_, ?_, ?_,
              inv.releaseBound, inv.releaseSorted, inv.mainIdleRunning, ?_, ?_, ?_⟩
            · intro e2 he2
              exact inv.mapWF e2 (mem_eraseWaiter e2 _ _ he2).1
            · intro j hj
              rw [SchedPc.schedNotify.injEq] at hj
              subst hj
              refine ⟨w, hw, hwpc, hwrdy, hwcnt, ?_⟩
              rw [hwlib]
              exact lookupWaiter_erase_self _ _
            · intro h
              rw [hes] at h
              exact EpochState.noConfusion h
            · intro hj
              exact SchedPc.noConfusion hj
            · intro h
              rw [inv.mainCleanupExited h] at hsp
              exact SchedPc.noConfusion hsp
            · intro h
              rw [inv.mainDoneExited h] at hsp
              exact SchedPc.noConfusion hsp
            · intro j wj hwj
              by_cases hji : j = wi
              · subst hji
                have hwj2 : wj = w := by
                  rw [hw, Option.some.injEq] at hwj
                  exact hwj.symm
                subst hwj2
                have hph := inv.phases j wj hwj
                simp only [WorkerPhase, hwpc] at hph
                refine workerPhase_atWait_intro _ _ _ _ hwpc hph.1
                  (Or.inr (Or.inl ⟨rfl, hwrdy, hwcnt, ?_⟩))
                rw [hwlib]
                exact lookupWaiter_erase_self _ _
              · have hph := inv.phases j wj hwj
                by_cases hlib : wj.lib_id = e.2
                · exfalso
                  have hlkj : lookupWaiter wj.lib_id s.trx_wait_map = some wi := by
                    rw [hlib]; exact hlk
                  unfold WorkerPhase at hph
                  rcases hpcj : wj.pc with _ | _ | _ | _ | _ <;> rw [hpcj] at hph
                  · rw [hph.1] at hlkj; exact Option.noConfusion hlkj
                  · rw [hph.1] at hlkj; exact Option.noConfusion hlkj
                  · rw [hph.1] at hlkj; exact Option.noConfusion hlkj
                  · rcases hph.2 with ⟨h1, _, _, _⟩ | ⟨h1, _, _, h4⟩ | ⟨_, _, h3, _⟩
                    · rw [h1, Option.some.injEq] at hlkj
                      exact hji hlkj
                    · rw [hsp] at h1
                      exact SchedPc.noConfusion h1
                    · rw [h3] at hlkj; exact Option.noConfusion hlkj
                  · rw [hph.2.2.1] at hlkj; exact Option.noConfusion hlkj
                · refine workerPhase_sp _ _ _ _ _ ?_
                    (workerPhase_mapeq _ _ _ _ _ (lookupWaiter_erase_ne _ _ _ hlib) hph)
                  rw [hsp]
                  constructor
                  · intro h
                    rw [SchedPc.schedNotify.injEq] at h
                    exact absurd h.symm hji
                  · intro h
                    exact SchedPc.noConfusion h
          next hlk =>
            refine ⟨inv.staticWF, inv.mapWF, inv.mapKeys, ?_, ?_, ?_,
              inv.releaseBound, inv.releaseSorted, inv.mainIdleRunning, ?_, ?_, ?_⟩
            · intro j hj
              exact SchedPc.noConfusion hj
            · intro h
              rw [hes] at h
              exact EpochState.noConfusion h
            · intro hj
              exact SchedPc.noConfusion hj
            · intro h
              rw [inv.mainCleanupExited h] at hsp
              exact SchedPc.noConfusion hsp
            · intro h
              rw [inv.mainDoneExited h] at hsp
              exact SchedPc.noConfusion hsp
            · intro j wj hwj
              exact hsp ▸ inv.phases j wj hwj
  | schedTransfer =>
    simp only [stepSched, hsp]
    refine ⟨inv.staticWF, inv.mapWF, inv.mapKeys, ?_, ?_, ?_, ?_,
      inv.releaseSorted, inv.mainIdleRunning, ?_, ?_, ?_⟩
    · intro j hj
      exact SchedPc.noConfusion hj
    · intro h
      exact EpochState.noConfusion h
    · intro hj
      exact SchedPc.noConfusion hj
    · intro e2 he2
      show e2.1 ≤ s.epochCount + 1
      have := inv.releaseBound e2 he2
      omega
    · intro h
      rw [inv.mainCleanupExited h] at hsp
      exact SchedPc.noConfusion hsp
    · intro h
      rw [inv.mainDoneExited h] at hsp
      exact SchedPc.noConfusion hsp
    · intro j wj hwj
      exact hnotifyNe _ (fun j h => SchedPc.noConfusion h) (Or.inr hsp) j wj
        (hsp ▸ inv.phases j wj hwj)
  | schedNotify wi =>
    obtain ⟨w, hw, hwpc, hwrdy, hwcnt, hwlk⟩ := inv.notifyWF wi hsp
    have hilen : wi < s.workers.length := lt_length_of_getElem?_eq_some _ _ _ hw
    simp only [stepSched, hsp, hw]
    have hnomem : ∀ e ∈ s.trx_wait_map, e.2 ≠ wi := by
      intro e he hcontra
      obtain ⟨w3, hw3, hl3, _, _, _⟩ := inv.mapWF e he
      rw [hcontra, hw, Option.some.injEq] at hw3
      subst hw3
      have hmm : (e.1, e.2) ∈ s.trx_wait_map := by
        have h5 : (e.1, e.2) = e := rfl
        rw [h5]
        exact he
      exact lookupWaiter_ne_none e.1 s.trx_wait_map e.2 hmm (hl3 ▸ hwlk)
    refine ⟨?_, ?_, inv.mapKeys, ?_, inv.collectEmpty, ?_, ?_, ?_,
      inv.mainIdleRunning, ?_, ?_, ?_⟩
    · exact (map_libprio_set s.workers wi w
        ({ w with is_ready := true, readySetCount := w.readySetCount + 1 }) hw rfl rfl).trans
        inv.staticWF
    · intro e he
      obtain ⟨w3, hw3, hl3, hpc3, hr3, hc3⟩ := inv.mapWF e he
      have hne : e.2 ≠ wi := hnomem e he
      exact ⟨w3, by rw [List.getElem?_set_ne (by omega)]; exact hw3, hl3, hpc3, hr3, hc3⟩
    · intro j hj
      exact SchedPc.noConfusion hj
    · intro hj
      exact SchedPc.noConfusion hj
    · intro e2 he2
      show e2.1 ≤ s.epochCount
      rcases List.mem_append.mp he2 with h1 | h1
      · exact inv.releaseBound e2 h1
      · rw [List.mem_singleton] at h1
        rw [h1]
    · refine List.pairwise_append.mpr ⟨inv.releaseSorted, List.pairwise_singleton _ _, ?_⟩
      intro a ha b hb
      rw [List.mem_singleton] at hb
      rw [hb]
      exact inv.releaseBound a ha
    · intro h
      rw [inv.mainCleanupExited h] at hsp
      exact SchedPc.noConfusion hsp
    · intro h
      rw [inv.mainDoneExited h] at hsp
      exact SchedPc.noConfusion hsp
    · intro j wj hwj
      by_cases hji : j = wi
      · subst hji
        rw [List.getElem?_set_self hilen, Option.some.injEq] at hwj
        subst hwj
        have hph := inv.phases j w hw
        simp only [WorkerPhase, hwpc] at hph
        refine workerPhase_atWait_intro _ _ _ _ hwpc hph.1
          (Or.inr (Or.inr ⟨rfl, by rw [hwcnt], hwlk, ?_⟩))
        intro h
        exact SchedPc.noConfusion h
      · rw [List.getElem?_set_ne (by omega)] at hwj
        refine workerPhase_sp _ _ _ _ _ ?_ (hsp ▸ inv.phases j wj hwj)
        constructor
        · intro h
          exact SchedPc.noConfusion h
        · intro h
          rw [SchedPc.schedNotify.injEq] at h
          exact absurd h.symm hji

/-- Any transition of the main (shutdown) thread preserves the invariant. -/
theorem schedInv_stepMain (reqs : List (Nat × Nat))
    (s : SchedulerModelState) (inv : SchedInv reqs s) :
    SchedInv reqs (stepMain s) := by
  cases hmp : s.mainPc with
  | mainIdle =>
    simp only [stepMain, hmp]
    split
    case isTrue hrun =>
      refine ⟨inv.staticWF, inv.mapWF, inv.mapKeys, inv.notifyWF, inv.collectEmpty,
        inv.transferCollect, inv.releaseBound, inv.releaseSorted, ?_, ?_, ?_, inv.phases⟩
      · intro h
        exact MainPc.noConfusion h
      · intro h
        exact MainPc.noConfusion h
      · intro h
        exact MainPc.noConfusion h
    case isFalse hrun =>
      exact absurd (inv.mainIdleRunning hmp) (by simpa using hrun)
  | mainJoining =>
    simp only [stepMain, hmp]
    split
    case isTrue hex =>
      refine ⟨inv.staticWF, inv.mapWF, inv.mapKeys, inv.notifyWF, inv.collectEmpty,
        inv.transferCollect, inv.releaseBound, inv.releaseSorted, ?_, ?_, ?_, inv.phases⟩
      · intro h
        exact MainPc.noConfusion h
      · intro _
        exact hex
      · intro h
        exact MainPc.noConfusion h
    case isFalse hex =>
      exact inv
  | mainCleanup =>
    have hex : s.schedPc = SchedPc.schedExited := inv.mainCleanupExited hmp
    simp only [stepMain, hmp]
    have hvals : List.Pairwise (fun a b : Nat × Nat => a.2 ≠ b.2) s.trx_wait_map := by
      refine List.Pairwise.imp_of_mem ?_ inv.mapKeys
      intro a b ha hb hne hcontra
      obtain ⟨wa, hwa, hla, _, _, _⟩ := inv.mapWF a ha
      obtain ⟨wb, hwb, hlb, _, _, _⟩ := inv.mapWF b hb
      rw [hcontra, hwb, Option.some.injEq] at hwa
      subst hwa
      rw [hla] at hlb
      exact hne hlb
    refine ⟨?_, ?_, List.Pairwise.nil, ?_, inv.collectEmpty, inv.transferCollect,
      inv.releaseBound, inv.releaseSorted, ?_, ?_, ?_, ?_⟩
    · exact (forceReleaseWaiters_map_libprio _ _).trans inv.staticWF
    · intro e he
      simp at he
    · intro j hj
      rw [hex] at hj
      exact SchedPc.noConfusion hj
    · intro h
      exact MainPc.noConfusion h
    · intro h
      exact MainPc.noConfusion h
    · intro _
      exact hex
    · intro j wj hwj
      by_cases hjm : ∃ e ∈ s.trx_wait_map, e.2 = j
      · obtain ⟨e0, he0, he0j⟩ := hjm
        obtain ⟨w0, hw0, hl0, hpc0, hr0, hc0⟩ := inv.mapWF e0 he0
        rw [he0j] at hw0
        rw [forceReleaseWaiters_touched s.trx_wait_map s.workers j w0 hvals hw0
          ⟨e0, he0, he0j⟩, Option.some.injEq] at hwj
        subst hwj
        have hph0 := inv.phases j w0 hw0
        simp only [WorkerPhase, hpc0] at hph0
        refine workerPhase_atWait_intro _ _ _ _ hpc0 hph0.1
          (Or.inr (Or.inr ⟨rfl, by rw [hc0], rfl, ?_⟩))
        rw [hex]
        intro h
        exact SchedPc.noConfusion h
      · rw [forceReleaseWaiters_untouched s.trx_wait_map s.workers j
          (fun e he hc => hjm ⟨e, he, hc⟩)] at hwj
        have hph := inv.phases j wj hwj
        have hlknone : lookupWaiter wj.lib_id s.trx_wait_map = none := by
          unfold WorkerPhase at hph
          rcases hpcj : wj.pc with _ | _ | _ | _ | _ <;> rw [hpcj] at hph
          · exact hph.1
          · exact hph.1
          · exact hph.1
          · rcases hph.2 with ⟨h1, _, _, _⟩ | ⟨h1, _, _, h4⟩ | ⟨_, _, h3, _⟩
            · exact absurd ⟨(wj.lib_id, j), lookupWaiter_mem _ _ _ h1, rfl⟩ hjm
            · rw [hex] at h1
              exact SchedPc.noConfusion h1
            · exact h3
          · exact hph.2.2.1
        refine workerPhase_mapeq _ _ _ _ _ ?_ hph
        rw [hlknone]
        rfl
  | mainDone =>
    simpa [stepMain, hmp] using inv

/-- The invariant is preserved by every interleaving action. -/
theorem schedInv_step (reqs : List (Nat × Nat))
    (hdist : List.Pairwise (fun a b : Nat × Nat => a.1 ≠ b.1) reqs)
    (s : SchedulerModelState) (inv : SchedInv reqs s) (a : SchedAction) :
    SchedInv reqs (stepModel s a) := by
  cases a with
  | workerStep i => exact schedInv_stepWorker reqs hdist s inv i
  | schedStep => exact schedInv_stepSched reqs s inv
  | mainStep => exact schedInv_stepMain reqs s inv

/-- The invariant holds in every reachable state. -/
theorem schedInv_reachable (reqs : List (Nat × Nat))
    (hdist : List.Pairwise (fun a b : Nat × Nat => a.1 ≠ b.1) reqs)
    (s : SchedulerModelState) (hreach : ReachableFrom reqs s) : SchedInv reqs s := by
  obtain ⟨tr, htr⟩ := hreach
  rw [← htr]
  clear htr
  induction tr using List.reverseRecOn with
  | nil => exact schedInv_init reqs
  | append_singleton tr a ih =>
    rw [runModel, List.foldl_append, List.foldl_cons, List.foldl_nil]
    exact schedInv_step reqs hdist _ ih a

/-! ## The claims -/

/-- Environment value with an integer prefix and trailing garbage: `std::stoi`
accepts it (parsing the prefix), the spec's "non-integer values are ignored"
wording does not. -/
def seedGarbageEnv : String := "123abc"

/-- Environment value for the epoch duration with trailing garbage. -/
def epochGarbageEnv : String := "7xyz"

/-- C9 counterexample: `RANDOM_SEED=123abc` is not an integer, yet the seed
becomes 123 rather than the default 42, because `std::stoi` parses the
leading digits and ignores the rest; likewise `ISOFUZZ_EPOCH_MS=7xyz` yields
7 rather than 5. -/
theorem C9_counterexample :
    isIntegerString seedGarbageEnv = false ∧
    init_rng_seed (some seedGarbageEnv) = 123 ∧
    init_rng_seed (some seedGarbageEnv) ≠ 42 ∧
    isIntegerString epochGarbageEnv = false ∧
    epoch_duration_ms (some epochGarbageEnv) = 7 ∧
    epoch_duration_ms (some epochGarbageEnv) ≠ 5 := by decide

/-- C9 (corrected): with the variable unset the defaults 42 and 5 ms apply,
and the real guard is `std::stoi` / `std::stol` success: the seed is the
parsed value whenever `stoi` succeeds — including on strings that merely
start with digits — and the epoch duration is the parsed value exactly when
`stol` succeeds on a strictly positive value, else the default 5. -/
theorem C9_env_defaults (sSeed sMs : String) :
    init_rng_seed none = 42 ∧
    epoch_duration_ms none = 5 ∧
    init_rng_seed (some sSeed) = (stoiModel sSeed).getD 42 ∧
    epoch_duration_ms (some sMs) =
      (Option.filter (fun v => decide (0 < v)) (stolModel sMs)).getD 5 := by
  refine ⟨rfl, rfl, ?_, ?_⟩
  · cases h : stoiModel sSeed <;> simp [init_rng_seed, h]
  · cases h : stolModel sMs with
    | none => simp [epoch_duration_ms, h, Option.filter]
    | some v =>
      by_cases hv : 0 < v
      · simp [epoch_duration_ms, h, Option.filter, hv]
      · simp [epoch_duration_ms, h, Option.filter, hv]

/-- A batch with two equal-priority requests: lib_id 10 was inserted into the
priority queue before lib_id 11, both with priority 5. -/
def tieBatch : List (Nat × Nat) := [(5, 10), (5, 11), (1, 12)]

/-- The spec's mock scenario: priorities 50, 10, 90, 30 in submission order. -/
def scenarioBatch : List (Nat × Nat) := [(50, 1), (10, 2), (90, 3), (30, 4)]

/-- C2 counterexample: the `std::priority_queue` heap is not stable.  On the
batch [(5,10), (5,11), (1,12)] the drain order puts lib_id 11 before the
earlier-inserted lib_id 10, while the tie-broken-by-insertion-order sort
required by the spec puts 10 first; the two orders differ. -/
theorem C2_counterexample :
    releaseOrder tieBatch = [(1, 12), (5, 11), (5, 10)] ∧
    stableSortByPriority tieBatch = [(1, 12), (5, 10), (5, 11)] ∧
    releaseOrder tieBatch ≠ stableSortByPriority tieBatch := by decide

/-- C2 (corrected): within one DRAINING batch the release order is ascending
in the drawn priorities — every element of the batch is released exactly once,
in priority-sorted order, and the spec's distinct-priority scenario
[50, 10, 90, 30] drains as [10, 30, 50, 90] — but equal-priority ties are
resolved by heap layout, not by insertion order. -/
theorem C2_release_ascending (batch : List (Nat × Nat)) :
    List.Pairwise (fun a b : Nat × Nat => a.1 ≤ b.1) (releaseOrder batch) ∧
    (releaseOrder batch).length = batch.length ∧
    (∀ y ∈ releaseOrder batch, y ∈ batch.foldl heapPush []) ∧
    releaseOrder scenarioBatch = [(10, 2), (30, 4), (50, 1), (90, 3)] := by
  obtain ⟨hh, hlen⟩ := isHeap_foldl_heapPush batch [] isHeap_nil
  obtain ⟨h1, h2, h3⟩ :=
    drainFuel_spec (batch.foldl heapPush []).length (batch.foldl heapPush [])
      (le_refl _) hh
  simp only [releaseOrder, drainHeap]
  refine ⟨h1, ?_, h2, by decide⟩
  rw [h3, hlen]
  simp

/-- A transaction record whose `lib_id` is absent from the (empty) registry:
the record a dangling handle still points at after `end_trx` erased its
entry. -/
def staleRecord : IsoFuzzTrxImpl := { lib_id := 5, dbms_id := 0, thread_id := 3 }

/-- A sample data object. -/
def sampleObject : IsoFuzzObject :=
  { table_name := "accounts", column_name := none, row_identifier := 42 }

/-- C6 counterexample: `get_trx` performs no registry lookup — it only checks
for null.  With an empty registry (so `staleRecord.lib_id` is not present),
the non-null stale handle is resolved to the record unchanged, `isofuzz_log_op`
on it still emits a line, and `isofuzz_trx_promote` still emits its PROMOTE
line; the operations are not no-ops. -/
theorem C6_counterexample :
    end_trx (some staleRecord) [] = [] ∧
    List.lookup staleRecord.lib_id ([] : List (Nat × IsoFuzzTrxImpl)) = none ∧
    get_trx (some staleRecord) = some staleRecord ∧
    (isofuzz_log_op (some staleRecord) IsoFuzzOpType.READ sampleObject 7).isSome = true ∧
    (isofuzz_trx_promote (some staleRecord) 99).2.length = 1 := by decide

/-- C6 (corrected): only the NULL handle is guarded.  Every entry point given
a null handle is a silent no-op: state (the registry) is unchanged and no
trace output is produced.  A non-null handle is never validated against the
registry (see the counterexample). -/
theorem C6_null_handle_noop (registry : List (Nat × IsoFuzzTrxImpl))
    (op_type : IsoFuzzOpType) (object : IsoFuzzObject) (lw new_id : Nat) :
    get_trx none = none ∧
    end_trx none registry = registry ∧
    isofuzz_log_op none op_type object lw = none ∧
    isofuzz_trx_commit none = none ∧
    isofuzz_trx_promote none new_id = (none, []) ∧
    isofuzz_schedule_op none = none :=
  ⟨rfl, rfl, rfl, rfl, rfl, rfl⟩

/-- A library state on which init has not yet been called. -/
def freshLibState : LibState :=
  { scheduler_running := false, epoch_ms := 5, rng_seed := 42,
    log_dest := .stdoutDest, trx_wait_map := [], m_transactions := [] }

/-- C7: on a not-running state, a second `isofuzz_init` with the same
environment is a no-op (the `scheduler_running.exchange(true)` guard makes the
scheduler part idempotent, and re-running `logger_init` re-derives the same
destination), and init-shutdown-init-shutdown equals init-shutdown on the
whole library state. -/
theorem C7_init_idempotent_roundtrip (envOut : Option String) (openOk : Bool)
    (envSeed envMs : Option String) (s : LibState)
    (hfresh : s.scheduler_running = false) :
    isofuzz_init envOut openOk envSeed envMs (isofuzz_init envOut openOk envSeed envMs s) =
      isofuzz_init envOut openOk envSeed envMs s ∧
    isofuzz_shutdown (isofuzz_init envOut openOk envSeed envMs
        (isofuzz_shutdown (isofuzz_init envOut openOk envSeed envMs s))) =
      isofuzz_shutdown (isofuzz_init envOut openOk envSeed envMs s) := by
  cases envOut with
  | none =>
    simp [isofuzz_init, isofuzz_shutdown, scheduler_init, logger_init,
      logger_shutdown, scheduler_shutdown_state, hfresh]
  | some path =>
    cases openOk <;>
      simp [isofuzz_init, isofuzz_shutdown, scheduler_init, logger_init,
        logger_shutdown, scheduler_shutdown_state, hfresh]

/-- Closed instance of the C7 theorem on a concrete fresh state with a
default environment. -/
theorem C7_witness :
    isofuzz_init none true none none (isofuzz_init none true none none freshLibState) =
      isofuzz_init none true none none freshLibState ∧
    isofuzz_shutdown (isofuzz_init none true none none
        (isofuzz_shutdown (isofuzz_init none true none none freshLibState))) =
      isofuzz_shutdown (isofuzz_init none true none none freshLibState) :=
  C7_init_idempotent_roundtrip none true none none freshLibState rfl

/-- C10: the `thread_id` field is captured in `begin_trx` from the calling
thread and never changes: every emitted line's first field is the begin-time
thread id of the transaction, a log call performed from a different thread
produces the identical line, and promotion leaves `thread_id` untouched. -/
theorem C10_thread_id_from_begin (trx : IsoFuzzTrxImpl)
    (lib beginThread otherThread lw new_id : Nat) (op_type : IsoFuzzOpType)
    (object : Option IsoFuzzObject) (obj2 : IsoFuzzObject) :
    (begin_trx lib beginThread).thread_id = beginThread ∧
    (log_generic_op_fields trx op_type object lw)[0]? = some (toString trx.thread_id) ∧
    log_op_called_from otherThread (some (begin_trx lib beginThread)) op_type obj2 lw =
      log_op_called_from beginThread (some (begin_trx lib beginThread)) op_type obj2 lw ∧
    ((log_op_called_from otherThread (some (begin_trx lib beginThread)) op_type obj2
        lw).getD [])[0]? = some (toString beginThread) ∧
    ((isofuzz_trx_promote (some (begin_trx lib beginThread)) new_id).1.getD
        (begin_trx lib beginThread)).thread_id = beginThread :=
  ⟨rfl, rfl, rfl, rfl, rfl⟩

/-- The transaction of the spec's promotion scenario: lib_id 1, begun on
thread 7, not yet promoted. -/
def c3Trx : IsoFuzzTrxImpl := begin_trx 1 7

/-- C3: the second field of every line is `toString (effective_trx_id trx)`,
where `effective_trx_id` is `dbms_id` when non-zero and `lib_id` otherwise;
`isofuzz_trx_promote` with a non-zero new id emits exactly one PROMOTE line
whose effective-id field is the new id and whose final field is the old
`lib_id`; a subsequent `isofuzz_log_op` on the promoted handle carries the new
id; and an object-less line has the literal N/A in its table, column and
row_id fields. -/
theorem C3_effective_id_promote (trx : IsoFuzzTrxImpl) (op_type : IsoFuzzOpType)
    (object : Option IsoFuzzObject) (lw new_id : Nat) (obj2 : IsoFuzzObject)
    (op2 : IsoFuzzOpType) (lw2 : Nat) (hnz : new_id ≠ 0) :
    (log_generic_op_fields trx op_type object lw)[1]? =
      some (toString (effective_trx_id trx)) ∧
    (trx.dbms_id = 0 ∨ effective_trx_id trx = trx.dbms_id) ∧
    (trx.dbms_id ≠ 0 ∨ effective_trx_id trx = trx.lib_id) ∧
    (isofuzz_trx_promote (some trx) new_id).2 =
      [log_generic_op_fields { trx with dbms_id := new_id } IsoFuzzOpType.TXN_PROMOTE none
        trx.lib_id] ∧
    ((isofuzz_trx_promote (some trx) new_id).2.headD [])[1]? = some (toString new_id) ∧
    ((isofuzz_trx_promote (some trx) new_id).2.headD [])[2]? =
      some (op_type_to_string IsoFuzzOpType.TXN_PROMOTE) ∧
    ((isofuzz_trx_promote (some trx) new_id).2.headD [])[6]? = some (toString trx.lib_id) ∧
    ((isofuzz_log_op (isofuzz_trx_promote (some trx) new_id).1 op2 obj2 lw2).getD
        [])[1]? = some (toString new_id) ∧
    (log_generic_op_fields trx op_type none lw)[3]? = some naString ∧
    (log_generic_op_fields trx op_type none lw)[4]? = some naString ∧
    (log_generic_op_fields trx op_type none lw)[5]? = some naString := by
  refine ⟨rfl, ?_, ?_, rfl, ?_, rfl, rfl, ?_, rfl, rfl, rfl⟩
  · by_cases h : trx.dbms_id = 0
    · exact Or.inl h
    · exact Or.inr (by simp [effective_trx_id, h])
  · by_cases h : trx.dbms_id = 0
    · exact Or.inr (by simp [effective_trx_id, h])
    · exact Or.inl h
  · simp [isofuzz_trx_promote, get_trx, log_generic_op_fields, effective_trx_id, hnz]
  · simp [isofuzz_trx_promote, get_trx, isofuzz_log_op, log_generic_op_fields,
      effective_trx_id, hnz]

/-- Closed instance of the C3 theorem: the scenario transaction promoted to
dbms id 9999, then logging a READ. -/
theorem C3_witness :
    (log_generic_op_fields c3Trx IsoFuzzOpType.TXN_BEGIN none 0)[1]? =
      some (toString (effective_trx_id c3Trx)) ∧
    (c3Trx.dbms_id = 0 ∨ effective_trx_id c3Trx = c3Trx.dbms_id) ∧
    (c3Trx.dbms_id ≠ 0 ∨ effective_trx_id c3Trx = c3Trx.lib_id) ∧
    (isofuzz_trx_promote (some c3Trx) 9999).2 =
      [log_generic_op_fields { c3Trx with dbms_id := 9999 } IsoFuzzOpType.TXN_PROMOTE none
        c3Trx.lib_id] ∧
    ((isofuzz_trx_promote (some c3Trx) 9999).2.headD [])[1]? = some (toString 9999) ∧
    ((isofuzz_trx_promote (some c3Trx) 9999).2.headD [])[2]? =
      some (op_type_to_string IsoFuzzOpType.TXN_PROMOTE) ∧
    ((isofuzz_trx_promote (some c3Trx) 9999).2.headD [])[6]? = some (toString c3Trx.lib_id) ∧
    ((isofuzz_log_op (isofuzz_trx_promote (some c3Trx) 9999).1 IsoFuzzOpType.READ
        sampleObject 1).getD [])[1]? = some (toString 9999) ∧
    (log_generic_op_fields c3Trx IsoFuzzOpType.TXN_BEGIN none 0)[3]? = some naString ∧
    (log_generic_op_fields c3Trx IsoFuzzOpType.TXN_BEGIN none 0)[4]? = some naString ∧
    (log_generic_op_fields c3Trx IsoFuzzOpType.TXN_BEGIN none 0)[5]? = some naString :=
  C3_effective_id_promote c3Trx IsoFuzzOpType.TXN_BEGIN none 0 9999 sampleObject
    IsoFuzzOpType.READ 1 (by decide)

/-- Interleaving for C1: worker 0 allocates its waiter and pushes onto the
pending FIFO; the scheduler thread then grabs the FIFO, transfers it into the
priority queue, and pops lib_id 1 during DRAINING — all before the worker
reaches its waiter-map insertion, which happens under a different mutex. -/
def c1Trace : List SchedAction :=
  [.workerStep 0, .workerStep 0, .schedStep, .schedStep, .schedStep]

set_option maxRecDepth 20000 in
/-- C1 (code bug): the else branch carrying the assert "Scheduler found a
transaction ID with no waiter info" in `trx_scheduler_run` IS reachable.  The
push to the pending FIFO and the map insertion of `scheduler_request` happen
under distinct mutexes, so the scheduler can drain the FIFO, transfer it and
pop the id while the worker still sits between the two; the popped id then
has no map entry. -/
theorem C1_assert_reachable :
    ReachableFrom [(1, 5)] (runModel (initModel [(1, 5)]) c1Trace) ∧
    (runModel (initModel [(1, 5)]) c1Trace).assertionReached = true ∧
    (runModel (initModel [(1, 5)]) c1Trace).trx_wait_map = [] ∧
    (runModel (initModel [(1, 5)]) c1Trace).workers.map WorkerState.pc =
      [WorkerPc.atInsertMap] :=
  ⟨⟨c1Trace, rfl⟩, by decide⟩

/-- Interleaving for C4/C5: worker 0 pushes onto the pending FIFO, the main
thread then runs the whole shutdown while the worker is preempted between its
FIFO push and its map insertion; the worker finally inserts into the map and
parks.  The cleanup step saw an empty map, so nobody ever releases it. -/
def c4Trace : List SchedAction :=
  [.workerStep 0, .workerStep 0, .mainStep, .schedStep, .mainStep, .mainStep, .workerStep 0]

set_option maxRecDepth 20000 in
/-- C4 counterexample: after shutdown has returned (mainPc = mainDone) a
worker is still parked in step 4 of `scheduler_request` with `is_ready`
false, its entry is still in the waiter map, and the whole system is
quiescent — every thread's step is a self-loop — so the worker is blocked
forever and never returns from `scheduler_request`. -/
theorem C4_counterexample :
    (runModel (initModel [(1, 5)]) c4Trace).mainPc = MainPc.mainDone ∧
    (runModel (initModel [(1, 5)]) c4Trace).trx_wait_map = [(1, 0)] ∧
    (runModel (initModel [(1, 5)]) c4Trace).workers.map WorkerState.pc = [WorkerPc.atWait] ∧
    (runModel (initModel [(1, 5)]) c4Trace).workers.map WorkerState.is_ready = [false] ∧
    stepWorker 0 (runModel (initModel [(1, 5)]) c4Trace) =
      runModel (initModel [(1, 5)]) c4Trace ∧
    stepSched (runModel (initModel [(1, 5)]) c4Trace) =
      runModel (initModel [(1, 5)]) c4Trace ∧
    stepMain (runModel (initModel [(1, 5)]) c4Trace) =
      runModel (initModel [(1, 5)]) c4Trace := by
  decide

/-- C4 (corrected): the force-release of `scheduler_shutdown` does clean what
it can see — after the cleanup step the waiter map is empty, shutdown
returns, and every worker already parked in step 4 at cleanup time has
`is_ready` true — but a worker that reaches the map only after the cleanup
step blocks forever (see the counterexample). -/
theorem C4_shutdown_cleanup (reqs : List (Nat × Nat))
    (hdist : List.Pairwise (fun a b : Nat × Nat => a.1 ≠ b.1) reqs)
    (s : SchedulerModelState) (hreach : ReachableFrom reqs s)
    (hcl : s.mainPc = MainPc.mainCleanup) :
    (stepMain s).trx_wait_map = [] ∧
    (stepMain s).mainPc = MainPc.mainDone ∧
    ∀ (j : Nat) (wj : WorkerState), (stepMain s).workers[j]? = some wj → wj.pc = WorkerPc.atWait →
      wj.is_ready = true := by
  have inv := schedInv_reachable reqs hdist s hreach
  have inv2 := schedInv_stepMain reqs s inv
  have hmap : (stepMain s).trx_wait_map = [] := by simp [stepMain, hcl]
  have hmain : (stepMain s).mainPc = MainPc.mainDone := by simp [stepMain, hcl]
  have hsp2 : (stepMain s).schedPc = SchedPc.schedExited := by
    have h6 : (stepMain s).schedPc = s.schedPc := by simp [stepMain, hcl]
    rw [h6]
    exact inv.mainCleanupExited hcl
  refine ⟨hmap, hmain, ?_⟩
  intro j wj hwj hpc
  have hph := inv2.phases j wj hwj
  simp only [WorkerPhase, hpc] at hph
  rcases hph.2 with ⟨h1, -, -, -⟩ | ⟨h1, -, -, -⟩ | ⟨h1, -, -, -⟩
  · rw [hmap] at h1
    exact Option.noConfusion h1
  · rw [hsp2] at h1
    exact SchedPc.noConfusion h1
  · exact h1

/-- Interleaving reaching the cleanup step with one waiter in the map: worker
0 inserts and parks, the main thread exchanges the running flag, the
scheduler thread exits, the main thread joins. -/
def c4wTrace : List SchedAction :=
  [.workerStep 0, .workerStep 0, .workerStep 0, .mainStep, .schedStep, .mainStep]

set_option maxRecDepth 20000 in
/-- Closed instance of the C4 theorem at the concrete cleanup-time state. -/
theorem C4_shutdown_cleanup_witness :
    (stepMain (runModel (initModel [(1, 5)]) c4wTrace)).trx_wait_map = [] ∧
    (stepMain (runModel (initModel [(1, 5)]) c4wTrace)).mainPc = MainPc.mainDone ∧
    ∀ (j : Nat) (wj : WorkerState), (stepMain (runModel (initModel [(1, 5)]) c4wTrace)).workers[j]? = some wj →
      wj.pc = WorkerPc.atWait → wj.is_ready = true :=
  C4_shutdown_cleanup [(1, 5)] (by decide) (runModel (initModel [(1, 5)]) c4wTrace)
    ⟨c4wTrace, rfl⟩ (by decide)

set_option maxRecDepth 20000 in
/-- C5 counterexample: for the request of the straggler interleaving, NO
producer ever sets `is_ready` (the ghost write counter is 0 — the scheduler
thread has exited and shutdown's force-release saw an empty map), the worker
never observes a release, and the waiter object is never destroyed
(`waiterAllocated` still true) although the system is quiescent; so "exactly
one producer sets, exactly one consumer observes, then the observer destroys"
fails. -/
theorem C5_counterexample :
    (runModel (initModel [(1, 5)]) c4Trace).workers.map WorkerState.readySetCount = [0] ∧
    (runModel (initModel [(1, 5)]) c4Trace).workers.map WorkerState.waiterAllocated = [true] ∧
    (runModel (initModel [(1, 5)]) c4Trace).workers.map WorkerState.is_ready = [false] ∧
    (runModel (initModel [(1, 5)]) c4Trace).mainPc = MainPc.mainDone ∧
    (runModel (initModel [(1, 5)]) c4Trace).schedPc = SchedPc.schedExited ∧
    stepWorker 0 (stepMain (runModel (initModel [(1, 5)]) c4Trace)) =
      runModel (initModel [(1, 5)]) c4Trace := by
  decide

/-- C5 (corrected): in every reachable state each waiter has seen AT MOST one
producer write of `is_ready` (not exactly one — see the counterexample, where
no producer ever writes it); `is_ready` is only true after exactly one write;
a worker past its wait has observed the flag (is_ready true, one write) and
has itself already destroyed its waiter; and the waiter object exists from
allocation until the observing worker frees it — a deallocated waiter means
the worker either has not allocated yet or has completed its request, so the
scheduler thread never destroys it. -/
theorem C5_ready_protocol (reqs : List (Nat × Nat))
    (hdist : List.Pairwise (fun a b : Nat × Nat => a.1 ≠ b.1) reqs)
    (s : SchedulerModelState) (hreach : ReachableFrom reqs s)
    (j : Nat) (wj : WorkerState) (hwj : s.workers[j]? = some wj) :
    wj.readySetCount ≤ 1 ∧
    (wj.readySetCount = 1 ∨ wj.is_ready = false) ∧
    (wj.pc ≠ WorkerPc.doneRequest ∨
      (wj.is_ready = true ∧ wj.readySetCount = 1 ∧ wj.waiterAllocated = false)) ∧
    (wj.waiterAllocated = true ∨ wj.pc = WorkerPc.atAlloc ∨ wj.pc = WorkerPc.doneRequest) := by
  have hph := (schedInv_reachable reqs hdist s hreach).phases j wj hwj
  cases hpc : wj.pc with
  | atAlloc =>
    simp only [WorkerPhase, hpc] at hph
    obtain ⟨-, hc, -, hr, ha⟩ := hph
    exact ⟨by omega, Or.inr hr, Or.inl (by simp [hpc]), Or.inr (Or.inl rfl)⟩
  | atPushFifo =>
    simp only [WorkerPhase, hpc] at hph
    obtain ⟨-, hc, -, hr, ha⟩ := hph
    exact ⟨by omega, Or.inr hr, Or.inl (by simp [hpc]), Or.inl ha⟩
  | atInsertMap =>
    simp only [WorkerPhase, hpc] at hph
    obtain ⟨-, hc, -, hr, ha⟩ := hph
    exact ⟨by omega, Or.inr hr, Or.inl (by simp [hpc]), Or.inl ha⟩
  | atWait =>
    simp only [WorkerPhase, hpc] at hph
    obtain ⟨ha, harm⟩ := hph
    refine ⟨?_, ?_, Or.inl (by simp [hpc]), Or.inl ha⟩
    · rcases harm with ⟨-, -, hc, -⟩ | ⟨-, -, hc, -⟩ | ⟨-, hc, -, -⟩ <;> omega
    · rcases harm with ⟨-, hr, -, -⟩ | ⟨-, hr, -, -⟩ | ⟨-, hc, -, -⟩
      · exact Or.inr hr
      · exact Or.inr hr
      · exact Or.inl hc
  | doneRequest =>
    simp only [WorkerPhase, hpc] at hph
    obtain ⟨hr, hc, -, -, ha⟩ := hph
    exact ⟨by omega, Or.inl hc, Or.inr ⟨hr, hc, ha⟩, Or.inr (Or.inr rfl)⟩

/-- Two-epoch interleaving: worker 0's request is collected, transferred and
released in epoch 1 and the worker completes; worker 1 then submits, and a
second collect/transfer releases it in epoch 2. -/
def c8wTrace : List SchedAction :=
  [.workerStep 0, .workerStep 0, .workerStep 0, .schedStep, .schedStep, .schedStep,
   .schedStep, .workerStep 0, .schedStep, .workerStep 1, .workerStep 1, .workerStep 1,
   .schedStep, .schedStep, .schedStep, .schedStep, .workerStep 1]

/-- Worker 0's state after its completed request in the two-epoch trace. -/
def c5wWorker : WorkerState :=
  { pc := .doneRequest, lib_id := 1, priority := 5, waiterAllocated := false,
    is_ready := true, readySetCount := 1 }

set_option maxRecDepth 20000 in
/-- Closed instance of the C5 theorem: worker 0 of the two-epoch trace, after
observing its release. -/
theorem C5_ready_protocol_witness :
    c5wWorker.readySetCount ≤ 1 ∧
    (c5wWorker.readySetCount = 1 ∨ c5wWorker.is_ready = false) ∧
    (c5wWorker.pc ≠ WorkerPc.doneRequest ∨
      (c5wWorker.is_ready = true ∧ c5wWorker.readySetCount = 1 ∧
        c5wWorker.waiterAllocated = false)) ∧
    (c5wWorker.waiterAllocated = true ∨ c5wWorker.pc = WorkerPc.atAlloc ∨
      c5wWorker.pc = WorkerPc.doneRequest) :=
  C5_ready_protocol [(1, 5), (2, 7)] (by decide)
    (runModel (initModel [(1, 5), (2, 7)]) c8wTrace) ⟨c8wTrace, rfl⟩ 0 c5wWorker (by decide)

/-- C8: the ghost release log pairs each release with its epoch number.  In
every reachable state the release log is sorted by epoch — every request
released in epoch n precedes every request released in epoch n+1, and a
request only enters the priority queue through the transfer that opens its
epoch's DRAINING phase: while COLLECTING the priority queue is empty, and the
transfer step runs only out of COLLECTING, so a request pushed to the pending
FIFO after its epoch's grab waits for a full drain and a new COLLECTING
window. -/
theorem C8_epoch_order (reqs : List (Nat × Nat))
    (hdist : List.Pairwise (fun a b : Nat × Nat => a.1 ≠ b.1) reqs)
    (s : SchedulerModelState) (hreach : ReachableFrom reqs s) :
    List.Pairwise (fun a b : Nat × Nat => a.1 ≤ b.1) s.releases ∧
    (s.g_epoch_state = EpochState.COLLECTING → s.scheduler_queue = []) ∧
    (s.schedPc = SchedPc.schedTransfer → s.g_epoch_state = EpochState.COLLECTING) ∧
    ∀ e ∈ s.releases, e.1 ≤ s.epochCount := by
  have inv := schedInv_reachable reqs hdist s hreach
  exact ⟨inv.releaseSorted, inv.collectEmpty, inv.transferCollect, inv.releaseBound⟩

set_option maxRecDepth 20000 in
/-- Closed instance of the C8 theorem on the two-epoch trace, whose release
log [(1, 1), (2, 2)] spans two epochs. -/
theorem C8_epoch_order_witness :
    List.Pairwise (fun a b : Nat × Nat => a.1 ≤ b.1)
      (runModel (initModel [(1, 5), (2, 7)]) c8wTrace).releases ∧
    ((runModel (initModel [(1, 5), (2, 7)]) c8wTrace).g_epoch_state = EpochState.COLLECTING →
      (runModel (initModel [(1, 5), (2, 7)]) c8wTrace).scheduler_queue = []) ∧
    ((runModel (initModel [(1, 5), (2, 7)]) c8wTrace).schedPc = SchedPc.schedTransfer →
      (runModel (initModel [(1, 5), (2, 7)]) c8wTrace).g_epoch_state =
        EpochState.COLLECTING) ∧
    ∀ e ∈ (runModel (initModel [(1, 5), (2, 7)]) c8wTrace).releases,
      e.1 ≤ (runModel (initModel [(1, 5), (2, 7)]) c8wTrace).epochCount :=
  C8_epoch_order [(1, 5), (2, 7)] (by decide)
    (runModel (initModel [(1, 5), (2, 7)]) c8wTrace) ⟨c8wTrace, rfl⟩
